import Mathlib

/-!
SimpleLog: a shallow embedding of `src/SimpleLog.cxx`.

The logger renders one line per call into a fixed `char buffer[1024]` and hands
it to a single `write`.  The embedding keeps the C control flow:

* a `char` is a Lean `Char`, a C string is a `List Char` (without its
  terminating NUL), the line buffer is a `List Char` of length 1024;
* `size_t` values are `Nat`s with explicit reduction modulo `2^64`;
* `int` values are `Int`s; the bitwise operators act on the 32-bit
  two's-complement pattern of their operands;
* an access outside the buffer (undefined behaviour in C) makes the embedded
  function return `none`;
* everything the environment decides (the clock, the result of `fopen`, the
  descriptors of `stdout`/`stderr`) is an explicit argument;
* the calls made to the C library (`fopen`, `fclose`, `write`) are recorded as a
  list of events.

The header `Common/SimpleLog.h`, which declares the numeric values of
`SimpleLog::FormatOption`, is not part of the development: the four constants
are taken as a parameter (`FormatOption`).
-/

/-! ## Machine integers -/

/-- Number of values of a `size_t` (64-bit). -/
def SIZE_MOD : Nat := 2 ^ 64

/-- Largest value of a C `int`. -/
def INT_MAX : Nat := 2 ^ 31 - 1

/-- Addition of two `size_t` values. -/
def sizeAdd (a b : Nat) : Nat := (a + b) % SIZE_MOD

/-- Subtraction `a - b` of two `size_t` values (wraps around when `b > a`). -/
def sizeSub (a b : Nat) : Nat := (a + SIZE_MOD - b % SIZE_MOD) % SIZE_MOD

/-- The 32-bit two's-complement bit pattern of a C `int`. -/
def bits (x : Int) : Nat := (x % 2 ^ 32).toNat

/-- The C `int` whose 32-bit two's-complement bit pattern is `n`. -/
def ofBits (n : Nat) : Int :=
  if n % 2 ^ 32 < 2 ^ 31 then ((n % 2 ^ 32 : Nat) : Int)
  else ((n % 2 ^ 32 : Nat) : Int) - 2 ^ 32

/-- C `a | b` on `int`. -/
def intOr (a b : Int) : Int := ofBits (bits a ||| bits b)

/-- C `a & b` on `int`. -/
def intAnd (a b : Int) : Int := ofBits (bits a &&& bits b)

/-! ## Characters and the C library -/

/-- The NUL character that terminates a C string. -/
def NUL : Char := Char.ofNat 0

/-- An open stdio stream (`FILE*`): the identity of the stream object and the
descriptor `fileno` returns for it. -/
structure FILE where
  stream : Nat
  fileno : Int
deriving DecidableEq, Repr

/-- A call to the C library made by the logger. -/
inductive Event where
  | fopen (path : String) (mode : String) (result : Option FILE)
  | fclose (fp : FILE)
  | write (fd : Int) (bytes : List Char)
deriving DecidableEq, Repr

/-- C `snprintf(&buffer[ix], size, ...)` (and `vsnprintf`) for a call whose complete
output would be `text`: at most `size - 1` characters of `text` are stored, then a
NUL; nothing is stored when `size` is 0.  The result is the new buffer and the
returned value, the length of the complete output.  An output longer than
`INT_MAX` (the call fails) or a store outside the buffer is `none`. -/
def snprintf (buffer : List Char) (ix size : Nat) (text : List Char) :
    Option (List Char × Nat) :=
  if text.length > INT_MAX then none
  else if size = 0 then some (buffer, text.length)
  else
    let out := text.take (size - 1) ++ [NUL]
    if ix + out.length ≤ buffer.length then
      some (buffer.take ix ++ out ++ buffer.drop (ix + out.length), text.length)
    else none

/-- C `strftime(&buffer[ix], max, ...)` for a call whose rendering is `text`: when
`text` and its NUL fit in `max` characters they are stored and the length of `text` is
returned.  Otherwise C returns 0 and leaves the array contents indeterminate: that
case, and a store outside the buffer, are `none`. -/
def strftime (buffer : List Char) (ix max : Nat) (text : List Char) :
    Option (List Char × Nat) :=
  if text.length + 1 ≤ max then
    if ix + (text.length + 1) ≤ buffer.length then
      some (buffer.take ix ++ (text ++ [NUL]) ++ buffer.drop (ix + (text.length + 1)),
        text.length)
    else none
  else none

/-- C `buffer[ix] = c`; a store outside the buffer is `none`. -/
def store (buffer : List Char) (ix : Nat) (c : Char) : Option (List Char) :=
  if ix < buffer.length then some (buffer.set ix c) else none

/-! ## The logger -/

/-- The constants of `enum SimpleLog::FormatOption`. -/
structure FormatOption where
  ShowTimeStamp : Int
  ShowSeveritySymbol : Int
  ShowSeverityTxt : Int
  ShowMessage : Int
deriving DecidableEq, Repr

/-- `enum Severity {Info,Error,Warning}`. -/
inductive SimpleLog.Impl.Severity where
  | Info
  | Error
  | Warning
deriving DecidableEq, Repr

/-- The fields of `class SimpleLog::Impl`; `fp = none` is the NULL pointer. -/
structure SimpleLog.Impl where
  fp : Option FILE
  formatOptions : Int
  fdStdout : Int
  fdStderr : Int
deriving DecidableEq, Repr

/-- The class `SimpleLog`: it owns its `Impl`. -/
structure SimpleLog where
  pImpl : SimpleLog.Impl
deriving DecidableEq, Repr

/-- What the clock and the locale contribute to one `logV` call: `date` is the
rendering of `"%Y-%m-%d %T"` for the local time, `fractionOfSecond` is the rendering
of `"%.6lf"` for the fraction of the current second. -/
structure Clock where
  date : List Char
  fractionOfSecond : List Char
deriving DecidableEq, Repr

/-- The line buffer and the write index `ix` while a line is rendered. -/
abbrev Line := List Char × Nat

/-- The test `formatOptions & flag` of `logV`. -/
def flagOn (formatOptions flag : Int) : Bool :=
  decide (intAnd formatOptions flag ≠ 0)

/-- The constructor `SimpleLog::Impl::Impl()`; the arguments are `fileno(stdout)` and
`fileno(stderr)`. -/
def SimpleLog.Impl.ctor (fo : FormatOption) (filenoStdout filenoStderr : Int) :
    SimpleLog.Impl :=
  { fp := none
    formatOptions :=
      intOr (intOr fo.ShowTimeStamp fo.ShowSeveritySymbol) fo.ShowMessage
    fdStdout := filenoStdout
    fdStderr := filenoStderr }

/-- The destructor `SimpleLog::Impl::~Impl()`. -/
def SimpleLog.Impl.dtor (self : SimpleLog.Impl) : SimpleLog.Impl × List Event :=
  match self.fp with
  | some f => ({ self with fp := none }, [Event.fclose f])
  | none => (self, [])

/-- Lines 72-74 of `logV`: `str_fractionOfSecond` is a `char[10]` filled by
`snprintf` (at most 9 characters are kept), and the text printed after the dot
starts at its index 2. -/
def fractionDigits (clk : Clock) : List Char :=
  (clk.fractionOfSecond.take (10 - 1)).drop 2

/-- The `ShowTimeStamp` block of `logV`. -/
def timeStampStage (fo : FormatOption) (self : SimpleLog.Impl) (clk : Clock)
    (len : Nat) (st : Line) : Option Line :=
  if flagOn self.formatOptions fo.ShowTimeStamp then
    (strftime st.1 st.2 (sizeSub len st.2) clk.date).bind fun r1 =>
    let ix1 := sizeAdd st.2 r1.2
    (snprintf r1.1 ix1 (sizeSub len ix1) ('.' :: fractionDigits clk)).bind fun r2 =>
    let ix2 := sizeAdd ix1 r2.2
    some (r2.1, if ix2 > len then len else ix2)
  else some st

/-- The `ShowSeveritySymbol` block of `logV`. -/
def severitySymbolStage (fo : FormatOption) (self : SimpleLog.Impl)
    (s : SimpleLog.Impl.Severity) (len : Nat) (st : Line) : Option Line :=
  if flagOn self.formatOptions fo.ShowSeveritySymbol then
    if s = SimpleLog.Impl.Severity.Error then
      (snprintf st.1 st.2 (sizeSub len st.2) " !!! ".toList).bind fun r =>
      some (r.1, sizeAdd st.2 r.2)
    else if s = SimpleLog.Impl.Severity.Warning then
      (snprintf st.1 st.2 (sizeSub len st.2) "  !  ".toList).bind fun r =>
      some (r.1, sizeAdd st.2 r.2)
    else
      (snprintf st.1 st.2 (sizeSub len st.2) "     ".toList).bind fun r =>
      some (r.1, sizeAdd st.2 r.2)
  else some st

/-- The `ShowSeverityTxt` block of `logV`. -/
def severityTxtStage (fo : FormatOption) (self : SimpleLog.Impl)
    (s : SimpleLog.Impl.Severity) (len : Nat) (st : Line) : Option Line :=
  if flagOn self.formatOptions fo.ShowSeverityTxt then
    if s = SimpleLog.Impl.Severity.Error then
      (snprintf st.1 st.2 (sizeSub len st.2) "Error - ".toList).bind fun r =>
      some (r.1, sizeAdd st.2 r.2)
    else if s = SimpleLog.Impl.Severity.Warning then
      (snprintf st.1 st.2 (sizeSub len st.2) "Warning - ".toList).bind fun r =>
      some (r.1, sizeAdd st.2 r.2)
    else some st
  else some st

/-- The `ShowMessage` block of `logV`; `message` is the expansion of the format
string with its arguments. -/
def messageStage (fo : FormatOption) (self : SimpleLog.Impl) (message : List Char)
    (len : Nat) (st : Line) : Option Line :=
  if flagOn self.formatOptions fo.ShowMessage then
    (snprintf st.1 st.2 (sizeSub len st.2) message).bind fun r =>
    let ix1 := sizeAdd st.2 r.2
    some (r.1, if ix1 > len then len else ix1)
  else some st

/-- Lines 104-106 of `logV`: the newline and the terminating NUL. -/
def terminateLine (st : Line) : Option Line :=
  (store st.1 st.2 '\n').bind fun b1 =>
  let ix1 := sizeAdd st.2 1
  (store b1 ix1 NUL).bind fun b2 =>
  some (b2, ix1)

/-- Lines 108-117 of `logV`: the descriptor the line is written to. -/
def destination (self : SimpleLog.Impl) (s : SimpleLog.Impl.Severity) : Int :=
  match self.fp with
  | some f => f.fileno
  | none =>
    if s = SimpleLog.Impl.Severity.Error then self.fdStderr else self.fdStdout

/-- The rendering part of `logV` (lines 53-106): the final buffer and index. -/
def renderLine (fo : FormatOption) (self : SimpleLog.Impl) (clk : Clock)
    (s : SimpleLog.Impl.Severity) (message : List Char) : Option Line :=
  let buffer : List Char := List.replicate 1024 NUL
  let len : Nat := 1024 - 2
  let ix : Nat := 0
  (timeStampStage fo self clk len (buffer, ix)).bind fun st1 =>
  (severitySymbolStage fo self s len st1).bind fun st2 =>
  (severityTxtStage fo self s len st2).bind fun st3 =>
  (messageStage fo self message len st3).bind fun st4 =>
  terminateLine st4

/-- The function `SimpleLog::Impl::logV`: `message` is the expansion of the format
string with the arguments `ap`, `writeResult` is what `write` returns (it is not
looked at).  The result is the returned `int` and the calls made. -/
def SimpleLog.Impl.logV (fo : FormatOption) (self : SimpleLog.Impl) (clk : Clock)
    (writeResult : Int) (s : SimpleLog.Impl.Severity) (message : List Char) :
    Option (Int × List Event) :=
  (renderLine fo self clk s message).bind fun st =>
  let fd := destination self s
  let _ignored := writeResult
  some (0, [Event.write fd (st.1.take st.2)])

/-- The function `SimpleLog::setLogFile`; `logFilePath = none` is a NULL path and
`fopenResult` is what `fopen(logFilePath,"a")` returns if it is called.  The result is
the returned `int`, the logger afterwards and the calls made. -/
def SimpleLog.setLogFile (self : SimpleLog) (logFilePath : Option String)
    (fopenResult : Option FILE) : Int × SimpleLog × List Event :=
  let closed : SimpleLog.Impl × List Event :=
    match self.pImpl.fp with
    | some f => ({ self.pImpl with fp := none }, [Event.fclose f])
    | none => (self.pImpl, [])
  match logFilePath with
  | some path =>
    let impl : SimpleLog.Impl := { closed.1 with fp := fopenResult }
    let events := closed.2 ++ [Event.fopen path "a" fopenResult]
    if impl.fp = none then (-1, { pImpl := impl }, events)
    else (0, { pImpl := impl }, events)
  | none => (0, { pImpl := closed.1 }, closed.2)

/-- The constructor `SimpleLog::SimpleLog(logFilePath)`.  `std::make_unique` never
yields a null pointer, so the `throw __LINE__` of line 130 (`Except.error 130`) is
not reached; the value returned by `setLogFile` is dropped. -/
def SimpleLog.ctor (fo : FormatOption) (filenoStdout filenoStderr : Int)
    (logFilePath : Option String) (fopenResult : Option FILE) :
    Except Int (SimpleLog × List Event) :=
  let pImpl : Option SimpleLog.Impl :=
    some (SimpleLog.Impl.ctor fo filenoStdout filenoStderr)
  match pImpl with
  | none => Except.error 130
  | some impl =>
    let r := SimpleLog.setLogFile { pImpl := impl } logFilePath fopenResult
    Except.ok (r.2.1, r.2.2)

/-- The destructor `SimpleLog::~SimpleLog()`, followed by the destruction of the
member `pImpl`. -/
def SimpleLog.dtor (self : SimpleLog) : SimpleLog × List Event :=
  let r := SimpleLog.setLogFile self none none
  let d := SimpleLog.Impl.dtor r.2.1.pImpl
  ({ pImpl := d.1 }, r.2.2 ++ d.2)

/-- The function `SimpleLog::info`: it returns `err`, the value returned by `logV`. -/
def SimpleLog.info (fo : FormatOption) (self : SimpleLog) (clk : Clock)
    (writeResult : Int) (message : List Char) : Option (Int × List Event) :=
  SimpleLog.Impl.logV fo self.pImpl clk writeResult SimpleLog.Impl.Severity.Info message

/-- The function `SimpleLog::error`: it returns `err`, the value returned by `logV`. -/
def SimpleLog.error (fo : FormatOption) (self : SimpleLog) (clk : Clock)
    (writeResult : Int) (message : List Char) : Option (Int × List Event) :=
  SimpleLog.Impl.logV fo self.pImpl clk writeResult SimpleLog.Impl.Severity.Error message

/-- The function `SimpleLog::warning`: it returns `err`, the value returned by `logV`. -/
def SimpleLog.warning (fo : FormatOption) (self : SimpleLog) (clk : Clock)
    (writeResult : Int) (message : List Char) : Option (Int × List Event) :=
  SimpleLog.Impl.logV fo self.pImpl clk writeResult SimpleLog.Impl.Severity.Warning message

/-- The function `SimpleLog::setOutputFormat`. -/
def SimpleLog.setOutputFormat (self : SimpleLog) (opts : Int) : SimpleLog :=
  { pImpl := { self.pImpl with formatOptions := opts } }

/-- The function `SimpleLog::setFileDescriptors`. -/
def SimpleLog.setFileDescriptors (self : SimpleLog) (fdStdout fdStderr : Int) :
    SimpleLog :=
  { pImpl := { self.pImpl with fdStdout := fdStdout, fdStderr := fdStderr } }

/-! ## Reference rendering

The line as the specification describes it: the concatenation of the texts of the
enabled stages, in the fixed stage order. -/

/-- The four rendering stages of `logV`, in the order they run. -/
inductive Stage where
  | TimeStamp
  | SeveritySymbol
  | SeverityTxt
  | Message
deriving DecidableEq, Repr

/-- The flag that gates a stage. -/
def Stage.flag (fo : FormatOption) : Stage → Int
  | Stage.TimeStamp => fo.ShowTimeStamp
  | Stage.SeveritySymbol => fo.ShowSeveritySymbol
  | Stage.SeverityTxt => fo.ShowSeverityTxt
  | Stage.Message => fo.ShowMessage

/-- The timestamp text: the date, a dot and the digits of the fraction. -/
def timeStampText (clk : Clock) : List Char :=
  clk.date ++ '.' :: fractionDigits clk

/-- The severity symbol of the specification. -/
def severitySymbolText : SimpleLog.Impl.Severity → List Char
  | SimpleLog.Impl.Severity.Error => " !!! ".toList
  | SimpleLog.Impl.Severity.Warning => "  !  ".toList
  | SimpleLog.Impl.Severity.Info => "     ".toList

/-- The severity text of the specification. -/
def severityTxtText : SimpleLog.Impl.Severity → List Char
  | SimpleLog.Impl.Severity.Error => "Error - ".toList
  | SimpleLog.Impl.Severity.Warning => "Warning - ".toList
  | SimpleLog.Impl.Severity.Info => []

/-- The complete text of a stage. -/
def stageText (clk : Clock) (s : SimpleLog.Impl.Severity) (message : List Char) :
    Stage → List Char
  | Stage.TimeStamp => timeStampText clk
  | Stage.SeveritySymbol => severitySymbolText s
  | Stage.SeverityTxt => severityTxtText s
  | Stage.Message => message

/-- What a stage contributes under the options `opts`: its text when its flag is
enabled, nothing otherwise. -/
def contribution (fo : FormatOption) (opts : Int) (clk : Clock)
    (s : SimpleLog.Impl.Severity) (message : List Char) (stage : Stage) : List Char :=
  if flagOn opts (stage.flag fo) then stageText clk s message stage else []

/-- The text of the three stages that run before the message stage. -/
def prefixText (fo : FormatOption) (opts : Int) (clk : Clock)
    (s : SimpleLog.Impl.Severity) : List Char :=
  contribution fo opts clk s [] Stage.TimeStamp
    ++ contribution fo opts clk s [] Stage.SeveritySymbol
    ++ contribution fo opts clk s [] Stage.SeverityTxt

/-- The full rendering: the concatenation of the enabled stages, without the
trailing newline. -/
def fullText (fo : FormatOption) (opts : Int) (clk : Clock)
    (s : SimpleLog.Impl.Severity) (message : List Char) : List Char :=
  prefixText fo opts clk s ++ contribution fo opts clk s message Stage.Message

/-- The contributions of the stages that run before `stage`, under `opts`. -/
def textBefore (fo : FormatOption) (opts : Int) (clk : Clock)
    (s : SimpleLog.Impl.Severity) (message : List Char) : Stage → List Char
  | Stage.TimeStamp => []
  | Stage.SeveritySymbol => contribution fo opts clk s message Stage.TimeStamp
  | Stage.SeverityTxt =>
    contribution fo opts clk s message Stage.TimeStamp
      ++ contribution fo opts clk s message Stage.SeveritySymbol
  | Stage.Message =>
    contribution fo opts clk s message Stage.TimeStamp
      ++ contribution fo opts clk s message Stage.SeveritySymbol
      ++ contribution fo opts clk s message Stage.SeverityTxt

/-- The contributions of the stages that run after `stage`, under `opts`. -/
def textAfter (fo : FormatOption) (opts : Int) (clk : Clock)
    (s : SimpleLog.Impl.Severity) (message : List Char) : Stage → List Char
  | Stage.TimeStamp =>
    contribution fo opts clk s message Stage.SeveritySymbol
      ++ contribution fo opts clk s message Stage.SeverityTxt
      ++ contribution fo opts clk s message Stage.Message
  | Stage.SeveritySymbol =>
    contribution fo opts clk s message Stage.SeverityTxt
      ++ contribution fo opts clk s message Stage.Message
  | Stage.SeverityTxt => contribution fo opts clk s message Stage.Message
  | Stage.Message => []

/-- The four format constants are independent flags: each has a bit set and no two
of them share a bit. -/
def FormatOption.Independent (fo : FormatOption) : Prop :=
  bits fo.ShowTimeStamp ≠ 0 ∧ bits fo.ShowSeveritySymbol ≠ 0 ∧
  bits fo.ShowSeverityTxt ≠ 0 ∧ bits fo.ShowMessage ≠ 0 ∧
  bits fo.ShowTimeStamp &&& bits fo.ShowSeveritySymbol = 0 ∧
  bits fo.ShowTimeStamp &&& bits fo.ShowSeverityTxt = 0 ∧
  bits fo.ShowTimeStamp &&& bits fo.ShowMessage = 0 ∧
  bits fo.ShowSeveritySymbol &&& bits fo.ShowSeverityTxt = 0 ∧
  bits fo.ShowSeveritySymbol &&& bits fo.ShowMessage = 0 ∧
  bits fo.ShowSeverityTxt &&& bits fo.ShowMessage = 0

/-! ## Lifetime of a logger -/

/-- The streams that are open after one more library call. -/
def applyEvent (opened : List FILE) : Event → List FILE
  | Event.fopen _ _ (some f) => f :: opened
  | Event.fopen _ _ none => opened
  | Event.fclose f => opened.erase f
  | Event.write _ _ => opened

/-- The streams that are open after a sequence of library calls, starting from the
open streams `opened`. -/
def openAfter (opened : List FILE) (events : List Event) : List FILE :=
  events.foldl applyEvent opened

/-- A sequence of `setLogFile` calls, each with its path and with what its `fopen`
returns; the result is the final logger and all the library calls made. -/
def SimpleLog.setLogFileCalls (log : SimpleLog) :
    List (Option String × Option FILE) → SimpleLog × List Event
  | [] => (log, [])
  | call :: rest =>
    let step := SimpleLog.setLogFile log call.1 call.2
    let tail := SimpleLog.setLogFileCalls step.2.1 rest
    (tail.1, step.2.2 ++ tail.2)

/-- The life of a logger: construction, a sequence of `setLogFile` calls and
destruction.  The result is the logger as the destructor leaves it and all the
library calls made, in order. -/
def SimpleLog.lifetime (fo : FormatOption) (filenoStdout filenoStderr : Int)
    (logFilePath : Option String) (fopenResult : Option FILE)
    (calls : List (Option String × Option FILE)) :
    Except Int (SimpleLog × List Event) :=
  match SimpleLog.ctor fo filenoStdout filenoStderr logFilePath fopenResult with
  | Except.error e => Except.error e
  | Except.ok constructed =>
    let run := SimpleLog.setLogFileCalls constructed.1 calls
    let destroyed := SimpleLog.dtor run.1
    Except.ok (destroyed.1, constructed.2 ++ run.2 ++ destroyed.2)

/-- What the buffer can hold of a text `c`: `c` itself when it is shorter than 1022
characters, else its first 1021 characters and the NUL stored by `snprintf`. -/
def clip (c : List Char) : List Char :=
  if c.length ≤ 1021 then c else c.take 1021 ++ [NUL]

/-- The line buffer `st` holds the text `c` appended so far, cut to the capacity. -/
def Rendered (st : Line) (c : List Char) : Prop :=
  st.1.length = 1024 ∧ st.2 = min c.length 1022 ∧ st.1.take st.2 = clip c

/-- The format constants used in the examples: four distinct bits. -/
def exampleFlags : FormatOption :=
  { ShowTimeStamp := 1, ShowSeveritySymbol := 2, ShowSeverityTxt := 4, ShowMessage := 8 }

/-- A clock reading used in the examples. -/
def exampleClock : Clock :=
  { date := "2024-01-02 03:04:05".toList, fractionOfSecond := "0.123456".toList }

/-! ## Sessions -/

/-- A call of a public operation of `SimpleLog`, with what the environment
contributes to it. -/
inductive Call where
  | setLogFile (logFilePath : Option String) (fopenResult : Option FILE)
  | setOutputFormat (opts : Int)
  | setFileDescriptors (fdStdout fdStderr : Int)
  | info (clk : Clock) (writeResult : Int) (message : List Char)
  | error (clk : Clock) (writeResult : Int) (message : List Char)
  | warning (clk : Clock) (writeResult : Int) (message : List Char)
deriving DecidableEq, Repr

/-- One call on a logger: the logger afterwards and the library calls made; `none`
when the call has undefined behaviour. -/
def SimpleLog.call (fo : FormatOption) (log : SimpleLog) :
    Call → Option (SimpleLog × List Event)
  | Call.setLogFile logFilePath fopenResult =>
    some ((SimpleLog.setLogFile log logFilePath fopenResult).2.1,
      (SimpleLog.setLogFile log logFilePath fopenResult).2.2)
  | Call.setOutputFormat opts => some (SimpleLog.setOutputFormat log opts, [])
  | Call.setFileDescriptors fdStdout fdStderr =>
    some (SimpleLog.setFileDescriptors log fdStdout fdStderr, [])
  | Call.info clk writeResult message =>
    (SimpleLog.info fo log clk writeResult message).bind fun res => some (log, res.2)
  | Call.error clk writeResult message =>
    (SimpleLog.error fo log clk writeResult message).bind fun res => some (log, res.2)
  | Call.warning clk writeResult message =>
    (SimpleLog.warning fo log clk writeResult message).bind fun res => some (log, res.2)

/-- A sequence of calls on a logger, in order. -/
def SimpleLog.calls (fo : FormatOption) (log : SimpleLog) :
    List Call → Option (SimpleLog × List Event)
  | [] => some (log, [])
  | c :: rest =>
    (SimpleLog.call fo log c).bind fun step =>
    (SimpleLog.calls fo step.1 rest).bind fun tail =>
    some (tail.1, step.2 ++ tail.2)

/-- A whole session: the constructor, any sequence of calls of the public
operations, the destructor.  The result is the logger as the destructor leaves it
and all the library calls made, in order. -/
def SimpleLog.session (fo : FormatOption) (filenoStdout filenoStderr : Int)
    (logFilePath : Option String) (fopenResult : Option FILE) (calls : List Call) :
    Option (SimpleLog × List Event) :=
  match SimpleLog.ctor fo filenoStdout filenoStderr logFilePath fopenResult with
  | Except.error _ => none
  | Except.ok constructed =>
    (SimpleLog.calls fo constructed.1 calls).bind fun run =>
    some ((SimpleLog.dtor run.1).1, constructed.2 ++ run.2 ++ (SimpleLog.dtor run.1).2)

/-! ## The line buffer -/

theorem sizeSub_len (ix : Nat) (h : ix ≤ 1022) : sizeSub 1022 ix = 1022 - ix := by
  unfold sizeSub SIZE_MOD; omega

theorem sizeAdd_small (a b : Nat) (h : a + b < 2 ^ 64) : sizeAdd a b = a + b := by
  unfold sizeAdd SIZE_MOD; omega

theorem clip_length (c : List Char) : (clip c).length = min c.length 1022 := by
  unfold clip; split <;> simp <;> omega

theorem clip_of_short (c : List Char) (h : c.length < 1022) : clip c = c := by
  unfold clip; rw [if_pos (by omega)]

theorem snprintf_rendered (st : Line) (c text : List Char) (h : Rendered st c)
    (ht : text.length ≤ INT_MAX) :
    ∃ buf, snprintf st.1 st.2 (sizeSub 1022 st.2) text = some (buf, text.length) ∧
      Rendered (buf, min (st.2 + text.length) 1022) (c ++ text) := by
  obtain ⟨hlen, hix, htake⟩ := h
  have hix_le : st.2 ≤ 1022 := by omega
  rw [sizeSub_len _ hix_le]
  unfold snprintf
  rw [if_neg (by omega)]
  by_cases hc : c.length ≤ 1021
  · have hixc : st.2 = c.length := by omega
    have htk : st.1.take st.2 = c := by rw [htake, clip, if_pos hc]
    rw [if_neg (by omega)]
    simp only [List.length_append, List.length_take, List.length_singleton]
    rw [if_pos (by omega)]
    refine ⟨_, rfl, ?_, ?_, ?_⟩
    · simp only [List.length_append, List.length_take, List.length_singleton,
        List.length_drop]
      omega
    · simp only [List.length_append]; omega
    · simp only [htk]
      by_cases hfit : c.length + text.length ≤ 1021
      · have e1 : List.take (1022 - st.2 - 1) text = text :=
          List.take_of_length_le (by omega)
        have e2 : min (st.2 + text.length) 1022 = (c ++ text).length := by
          simp only [List.length_append]; omega
        rw [e1, e2, clip, if_pos (by simp only [List.length_append]; omega)]
        rw [List.append_assoc, List.append_assoc, ← List.append_assoc c text]
        exact List.take_left' rfl
      · have e2 : min (st.2 + text.length) 1022
            = (c ++ List.take (1022 - st.2 - 1) text ++ [NUL]).length := by
          simp only [List.length_append, List.length_take, List.length_singleton]; omega
        rw [e2, ← List.append_assoc c, List.take_left' rfl, clip,
          if_neg (by simp only [List.length_append]; omega)]
        rw [List.take_append_eq_append_take,
          List.take_of_length_le (by omega : c.length ≤ 1021)]
        rw [hixc]
        have e3 : 1022 - c.length - 1 = 1021 - c.length := by omega
        rw [e3]
  · have hix2 : st.2 = 1022 := by omega
    rw [if_pos (by omega)]
    refine ⟨_, rfl, hlen, ?_, ?_⟩
    · simp only [List.length_append]; omega
    · have e : min (st.2 + text.length) 1022 = st.2 := by omega
      simp only [e, htake]
      unfold clip
      rw [if_neg hc, if_neg (by simp only [List.length_append]; omega)]
      rw [List.take_append_of_le_length (by omega)]

theorem strftime_rendered (st : Line) (c text : List Char) (h : Rendered st c)
    (ht : c.length + text.length + 1 ≤ 1022) :
    ∃ buf, strftime st.1 st.2 (sizeSub 1022 st.2) text = some (buf, text.length) ∧
      Rendered (buf, st.2 + text.length) (c ++ text) := by
  obtain ⟨hlen, hix, htake⟩ := h
  have hixc : st.2 = c.length := by omega
  have htk : st.1.take st.2 = c := by rw [htake, clip, if_pos (by omega)]
  rw [sizeSub_len _ (by omega)]
  unfold strftime
  rw [if_pos (by omega), if_pos (by omega)]
  refine ⟨_, rfl, ?_, ?_, ?_⟩
  · simp only [List.length_append, List.length_take, List.length_singleton,
      List.length_drop]
    omega
  · simp only [List.length_append]; omega
  · simp only [htk]
    rw [clip, if_pos (by simp only [List.length_append]; omega)]
    rw [← List.append_assoc c, List.append_assoc (c ++ text)]
    exact List.take_left' (by simp only [List.length_append]; omega)

theorem take_set_of_le (l : List Char) (a : Char) (m n : Nat) (h : m ≤ n) :
    (l.set n a).take m = l.take m := by
  rw [List.set_take]
  exact List.set_eq_of_length_le (by rw [List.length_take]; omega)

theorem terminateLine_rendered (st : Line) (c : List Char) (h : Rendered st c) :
    ∃ buf, terminateLine st = some (buf, min c.length 1022 + 1) ∧
      buf.take (min c.length 1022 + 1) = clip c ++ ['\n'] := by
  obtain ⟨hlen, hix, htake⟩ := h
  unfold terminateLine store
  rw [if_pos (by omega)]
  simp only [Option.some_bind, List.length_set]
  rw [sizeAdd_small _ _ (by omega), if_pos (by omega)]
  simp only [Option.some_bind]
  refine ⟨_, by rw [hix], ?_⟩
  rw [← hix, take_set_of_le _ _ _ _ (Nat.le_refl _), List.take_succ,
    take_set_of_le _ _ _ _ (Nat.le_refl _), htake,
    List.getElem?_set_self (by omega)]
  rfl

/-! ## The stages of `logV` -/

theorem rendered_init : Rendered (List.replicate 1024 NUL, 0) [] := by
  refine ⟨List.length_replicate _ _, rfl, ?_⟩
  show List.take 0 _ = clip []
  rw [List.take_zero]
  rfl

theorem fractionDigits_length (clk : Clock) : (fractionDigits clk).length ≤ 7 := by
  unfold fractionDigits
  simp only [List.length_drop, List.length_take]
  omega

theorem timeStampStage_rendered (fo : FormatOption) (self : SimpleLog.Impl)
    (clk : Clock) (s : SimpleLog.Impl.Severity) (m : List Char) (st : Line)
    (c : List Char) (h : Rendered st c)
    (hfit : c.length
      + (contribution fo self.formatOptions clk s m Stage.TimeStamp).length ≤ 1022) :
    ∃ st1, timeStampStage fo self clk 1022 st = some st1 ∧
      Rendered st1 (c ++ contribution fo self.formatOptions clk s m Stage.TimeStamp) := by
  unfold timeStampStage
  unfold contribution at hfit ⊢
  simp only [Stage.flag, stageText] at hfit ⊢
  cases hf : flagOn self.formatOptions fo.ShowTimeStamp
  case true =>
    simp only [hf, if_true] at hfit ⊢
    unfold timeStampText at hfit ⊢
    simp only [List.length_append, List.length_cons] at hfit
    obtain ⟨b1, e1, r1⟩ := strftime_rendered st c clk.date h (by omega)
    have hst : st.2 ≤ 1022 := by have := h.2.1; omega
    have hfd := fractionDigits_length clk
    obtain ⟨b2, e2, r2⟩ := snprintf_rendered (b1, st.2 + clk.date.length)
      (c ++ clk.date) ('.' :: fractionDigits clk) r1
      (by simp only [List.length_cons, INT_MAX]; omega)
    have hix1 : sizeAdd st.2 clk.date.length = st.2 + clk.date.length :=
      sizeAdd_small _ _ (by omega)
    simp only [List.length_cons] at e2 r2
    have hix2 : sizeAdd (st.2 + clk.date.length) ((fractionDigits clk).length + 1)
        = st.2 + clk.date.length + ((fractionDigits clk).length + 1) :=
      sizeAdd_small _ _ (by omega)
    rw [e1]
    simp only [Option.some_bind, hix1]
    rw [e2]
    simp only [Option.some_bind, hix2, List.length_cons]
    refine ⟨_, rfl, ?_⟩
    rw [List.append_assoc] at r2
    have hmin : (if st.2 + clk.date.length + ((fractionDigits clk).length + 1) > 1022
        then 1022 else st.2 + clk.date.length + ((fractionDigits clk).length + 1))
        = min (st.2 + clk.date.length + ((fractionDigits clk).length + 1)) 1022 := by
      split <;> omega
    rw [hmin]
    exact r2
  case false =>
    simp only [hf, Bool.false_eq_true, if_false, List.append_nil]
    exact ⟨st, rfl, h⟩

theorem plainStage_rendered (st : Line) (c text : List Char) (h : Rendered st c)
    (hfit : c.length + text.length ≤ 1022) :
    ∃ st1, ((snprintf st.1 st.2 (sizeSub 1022 st.2) text).bind fun r =>
        some (r.1, sizeAdd st.2 r.2)) = some st1 ∧ Rendered st1 (c ++ text) := by
  obtain ⟨b, e, r⟩ := snprintf_rendered st c text h (by unfold INT_MAX; omega)
  have hst : st.2 = min c.length 1022 := h.2.1
  rw [e]
  simp only [Option.some_bind]
  rw [sizeAdd_small _ _ (by omega)]
  refine ⟨_, rfl, ?_⟩
  have hmin : min (st.2 + text.length) 1022 = st.2 + text.length := by omega
  rw [hmin] at r
  exact r

theorem severitySymbolStage_rendered (fo : FormatOption) (self : SimpleLog.Impl)
    (clk : Clock) (s : SimpleLog.Impl.Severity) (m : List Char) (st : Line)
    (c : List Char) (h : Rendered st c)
    (hfit : c.length
      + (contribution fo self.formatOptions clk s m Stage.SeveritySymbol).length ≤ 1022) :
    ∃ st1, severitySymbolStage fo self s 1022 st = some st1 ∧
      Rendered st1
        (c ++ contribution fo self.formatOptions clk s m Stage.SeveritySymbol) := by
  unfold severitySymbolStage
  unfold contribution at hfit ⊢
  simp only [Stage.flag, stageText] at hfit ⊢
  cases hf : flagOn self.formatOptions fo.ShowSeveritySymbol
  case true =>
    simp only [hf, if_true] at hfit ⊢
    cases s
    · rw [if_neg (by decide), if_neg (by decide)]
      exact plainStage_rendered st c _ h hfit
    · rw [if_pos rfl]
      exact plainStage_rendered st c _ h hfit
    · rw [if_neg (by decide), if_pos rfl]
      exact plainStage_rendered st c _ h hfit
  case false =>
    simp only [hf, Bool.false_eq_true, if_false, List.append_nil]
    exact ⟨st, rfl, h⟩

theorem severityTxtStage_rendered (fo : FormatOption) (self : SimpleLog.Impl)
    (clk : Clock) (s : SimpleLog.Impl.Severity) (m : List Char) (st : Line)
    (c : List Char) (h : Rendered st c)
    (hfit : c.length
      + (contribution fo self.formatOptions clk s m Stage.SeverityTxt).length ≤ 1022) :
    ∃ st1, severityTxtStage fo self s 1022 st = some st1 ∧
      Rendered st1 (c ++ contribution fo self.formatOptions clk s m Stage.SeverityTxt) := by
  unfold severityTxtStage
  unfold contribution at hfit ⊢
  simp only [Stage.flag, stageText] at hfit ⊢
  cases hf : flagOn self.formatOptions fo.ShowSeverityTxt
  case true =>
    simp only [hf, if_true] at hfit ⊢
    cases s
    · rw [if_neg (by decide), if_neg (by decide)]
      exact ⟨st, rfl, by simp only [severityTxtText, List.append_nil]; exact h⟩
    · rw [if_pos rfl]
      exact plainStage_rendered st c _ h hfit
    · rw [if_neg (by decide), if_pos rfl]
      exact plainStage_rendered st c _ h hfit
  case false =>
    simp only [hf, Bool.false_eq_true, if_false, List.append_nil]
    exact ⟨st, rfl, h⟩

theorem messageStage_rendered (fo : FormatOption) (self : SimpleLog.Impl)
    (clk : Clock) (s : SimpleLog.Impl.Severity) (m : List Char) (st : Line)
    (c : List Char) (h : Rendered st c)
    (hm : (contribution fo self.formatOptions clk s m Stage.Message).length ≤ INT_MAX) :
    ∃ st1, messageStage fo self m 1022 st = some st1 ∧
      Rendered st1 (c ++ contribution fo self.formatOptions clk s m Stage.Message) := by
  unfold messageStage
  unfold contribution at hm ⊢
  simp only [Stage.flag, stageText] at hm ⊢
  cases hf : flagOn self.formatOptions fo.ShowMessage
  case true =>
    simp only [hf, if_true] at hm ⊢
    obtain ⟨b, e, r⟩ := snprintf_rendered st c m h hm
    have hst : st.2 = min c.length 1022 := h.2.1
    rw [e]
    simp only [Option.some_bind]
    rw [sizeAdd_small _ _ (by unfold INT_MAX at hm; omega)]
    refine ⟨_, rfl, ?_⟩
    have hmin : (if st.2 + m.length > 1022 then 1022 else st.2 + m.length)
        = min (st.2 + m.length) 1022 := by
      split <;> omega
    rw [hmin]
    exact r
  case false =>
    simp only [Bool.false_eq_true, if_false, List.append_nil]
    exact ⟨st, rfl, h⟩

/-! ## The rendered line -/

theorem renderLine_eq (fo : FormatOption) (self : SimpleLog.Impl) (clk : Clock)
    (s : SimpleLog.Impl.Severity) (message : List Char)
    (hpre : (prefixText fo self.formatOptions clk s).length ≤ 1022)
    (hmsg : (contribution fo self.formatOptions clk s message Stage.Message).length
      ≤ INT_MAX) :
    ∃ buf, renderLine fo self clk s message
        = some (buf, min (fullText fo self.formatOptions clk s message).length 1022 + 1) ∧
      buf.take (min (fullText fo self.formatOptions clk s message).length 1022 + 1)
        = clip (fullText fo self.formatOptions clk s message) ++ ['\n'] := by
  unfold prefixText at hpre
  simp only [List.length_append] at hpre
  obtain ⟨st1, e1, r1⟩ := timeStampStage_rendered fo self clk s [] _ [] rendered_init
    (by simp only [List.length_nil]; omega)
  obtain ⟨st2, e2, r2⟩ := severitySymbolStage_rendered fo self clk s [] st1 _ r1
    (by simp only [List.length_append, List.length_nil]; omega)
  obtain ⟨st3, e3, r3⟩ := severityTxtStage_rendered fo self clk s [] st2 _ r2
    (by simp only [List.length_append, List.length_nil]; omega)
  obtain ⟨st4, e4, r4⟩ := messageStage_rendered fo self clk s message st3 _ r3 hmsg
  obtain ⟨buf, e5, r5⟩ := terminateLine_rendered st4 _ r4
  rw [List.nil_append] at r4 r5 e5
  refine ⟨buf, ?_, r5⟩
  unfold renderLine
  show ((timeStampStage fo self clk 1022 (List.replicate 1024 NUL, 0)).bind fun st1 =>
    (severitySymbolStage fo self s 1022 st1).bind fun st2 =>
    (severityTxtStage fo self s 1022 st2).bind fun st3 =>
    (messageStage fo self message 1022 st3).bind fun st4 => terminateLine st4) = _
  rw [e1, Option.some_bind, e2, Option.some_bind, e3, Option.some_bind, e4,
    Option.some_bind, e5]
  rfl

theorem logV_eq (fo : FormatOption) (self : SimpleLog.Impl) (clk : Clock)
    (writeResult : Int) (s : SimpleLog.Impl.Severity) (message : List Char)
    (hpre : (prefixText fo self.formatOptions clk s).length ≤ 1022)
    (hmsg : (contribution fo self.formatOptions clk s message Stage.Message).length
      ≤ INT_MAX) :
    SimpleLog.Impl.logV fo self clk writeResult s message
      = some (0, [Event.write (destination self s)
          (clip (fullText fo self.formatOptions clk s message) ++ ['\n'])]) := by
  obtain ⟨buf, e, r⟩ := renderLine_eq fo self clk s message hpre hmsg
  unfold SimpleLog.Impl.logV
  rw [e, Option.some_bind]
  simp only [r]

theorem prefixText_le_fullText (fo : FormatOption) (opts : Int) (clk : Clock)
    (s : SimpleLog.Impl.Severity) (message : List Char) :
    (prefixText fo opts clk s).length ≤ (fullText fo opts clk s message).length := by
  unfold fullText
  rw [List.length_append]
  omega

/-! ## Reference rendering and `setLogFile` -/

theorem fullText_short (fo : FormatOption) (opts : Int) (clk : Clock)
    (s : SimpleLog.Impl.Severity) (message : List Char)
    (h : (fullText fo opts clk s message).length < 1022) :
    (prefixText fo opts clk s).length ≤ 1022 ∧
      (contribution fo opts clk s message Stage.Message).length ≤ INT_MAX := by
  unfold fullText at h
  rw [List.length_append] at h
  unfold INT_MAX
  omega

theorem setLogFile_some (log : SimpleLog) (path : String) (r : Option FILE) :
    SimpleLog.setLogFile log (some path) r
      = (if r = none then -1 else 0, { pImpl := { log.pImpl with fp := r } },
          (match log.pImpl.fp with
            | some f => [Event.fclose f]
            | none => []) ++ [Event.fopen path "a" r]) := by
  unfold SimpleLog.setLogFile
  cases hfp : log.pImpl.fp <;> cases r <;> simp

theorem setLogFile_none (log : SimpleLog) (r : Option FILE) :
    SimpleLog.setLogFile log none r
      = (0, { pImpl := { log.pImpl with fp := none } },
          match log.pImpl.fp with
            | some f => [Event.fclose f]
            | none => []) := by
  unfold SimpleLog.setLogFile
  cases hfp : log.pImpl.fp <;> simp
  cases log with
  | mk p => cases p; simp_all

theorem destination_eq (self : SimpleLog.Impl) (s : SimpleLog.Impl.Severity) :
    destination self s
      = match self.fp with
        | some f => f.fileno
        | none =>
          if s = SimpleLog.Impl.Severity.Error then self.fdStderr else self.fdStdout :=
  rfl

theorem fullText_split (fo : FormatOption) (opts : Int) (clk : Clock)
    (s : SimpleLog.Impl.Severity) (m : List Char) (f : Stage) :
    fullText fo opts clk s m
      = textBefore fo opts clk s m f ++ contribution fo opts clk s m f
          ++ textAfter fo opts clk s m f := by
  cases f <;>
    simp [fullText, prefixText, textBefore, textAfter, contribution, stageText,
      List.append_assoc]

theorem contribution_off (fo : FormatOption) (opts : Int) (clk : Clock)
    (s : SimpleLog.Impl.Severity) (m : List Char) (g : Stage)
    (h : flagOn opts (g.flag fo) = false) : contribution fo opts clk s m g = [] := by
  unfold contribution
  rw [h]
  rfl

theorem contribution_on (fo : FormatOption) (opts : Int) (clk : Clock)
    (s : SimpleLog.Impl.Severity) (m : List Char) (g : Stage)
    (h : flagOn opts (g.flag fo) = true) :
    contribution fo opts clk s m g = stageText clk s m g := by
  unfold contribution
  rw [h]
  rfl

theorem contribution_congr (fo : FormatOption) (opts opts1 : Int) (clk : Clock)
    (s : SimpleLog.Impl.Severity) (m : List Char) (g : Stage)
    (h : flagOn opts1 (g.flag fo) = flagOn opts (g.flag fo)) :
    contribution fo opts1 clk s m g = contribution fo opts clk s m g := by
  unfold contribution
  rw [h]

theorem fullText_without (fo : FormatOption) (opts opts1 : Int) (clk : Clock)
    (s : SimpleLog.Impl.Severity) (m : List Char) (f : Stage)
    (hoff : flagOn opts1 (f.flag fo) = false)
    (hsame : ∀ g : Stage, g ≠ f → flagOn opts1 (g.flag fo) = flagOn opts (g.flag fo)) :
    fullText fo opts1 clk s m
      = textBefore fo opts clk s m f ++ textAfter fo opts clk s m f := by
  have hother : ∀ g : Stage, g ≠ f →
      contribution fo opts1 clk s m g = contribution fo opts clk s m g :=
    fun g hg => contribution_congr fo opts opts1 clk s m g (hsame g hg)
  have hself := contribution_off fo opts1 clk s m f hoff
  rw [fullText_split fo opts1 clk s m f, hself, List.append_nil]
  cases f
  · simp only [textBefore, textAfter]
    rw [hother Stage.SeveritySymbol (by decide), hother Stage.SeverityTxt (by decide),
      hother Stage.Message (by decide)]
  · simp only [textBefore, textAfter]
    rw [hother Stage.TimeStamp (by decide), hother Stage.SeverityTxt (by decide),
      hother Stage.Message (by decide)]
  · simp only [textBefore, textAfter]
    rw [hother Stage.TimeStamp (by decide), hother Stage.SeveritySymbol (by decide),
      hother Stage.Message (by decide)]
  · simp only [textBefore, textAfter]
    rw [hother Stage.TimeStamp (by decide), hother Stage.SeveritySymbol (by decide),
      hother Stage.SeverityTxt (by decide)]

/-! ## Format flags -/

theorem bits_lt (x : Int) : bits x < 2 ^ 32 := by
  unfold bits
  omega

theorem bits_ofBits (n : Nat) (h : n < 2 ^ 32) : bits (ofBits n) = n := by
  unfold bits ofBits
  split <;> omega

theorem ofBits_eq_zero (n : Nat) (h : n < 2 ^ 32) : ofBits n = 0 ↔ n = 0 := by
  unfold ofBits
  split <;> omega

theorem bits_intOr (a b : Int) : bits (intOr a b) = bits a ||| bits b := by
  unfold intOr
  exact bits_ofBits _ (Nat.or_lt_two_pow (bits_lt a) (bits_lt b))

theorem flagOn_iff (a b : Int) : flagOn a b = true ↔ bits a &&& bits b ≠ 0 := by
  unfold flagOn intAnd
  rw [decide_eq_true_iff, Ne, ofBits_eq_zero _ (Nat.and_lt_two_pow _ (bits_lt b))]

theorem flagOn_false_iff (a b : Int) : flagOn a b = false ↔ bits a &&& bits b = 0 := by
  rw [← Bool.not_eq_true, flagOn_iff, not_not]

theorem or_and_ne_zero_left (x y a : Nat) (h : x &&& a ≠ 0) : (x ||| y) &&& a ≠ 0 := by
  obtain ⟨i, hi⟩ := Nat.ne_zero_implies_bit_true h
  intro h0
  have h1 := congrArg (fun n => n.testBit i) h0
  simp only [Nat.testBit_and, Nat.testBit_or, Nat.zero_testBit] at h1 hi
  cases hx : x.testBit i <;> cases ha : a.testBit i <;> simp_all

theorem or_and_ne_zero_right (x y a : Nat) (h : y &&& a ≠ 0) : (x ||| y) &&& a ≠ 0 := by
  rw [Nat.or_comm]
  exact or_and_ne_zero_left y x a h

theorem or_and_eq_zero (x y a : Nat) (hx : x &&& a = 0) (hy : y &&& a = 0) :
    (x ||| y) &&& a = 0 := by
  apply Nat.eq_of_testBit_eq
  intro i
  have h1 := congrArg (fun n => n.testBit i) hx
  have h2 := congrArg (fun n => n.testBit i) hy
  simp only [Nat.testBit_and, Nat.testBit_or, Nat.zero_testBit] at h1 h2 ⊢
  cases hxi : x.testBit i <;> cases hyi : y.testBit i <;> cases hai : a.testBit i <;>
    simp_all

theorem default_flags (fo : FormatOption) (hind : fo.Independent) :
    flagOn (intOr (intOr fo.ShowTimeStamp fo.ShowSeveritySymbol) fo.ShowMessage)
        fo.ShowTimeStamp = true ∧
    flagOn (intOr (intOr fo.ShowTimeStamp fo.ShowSeveritySymbol) fo.ShowMessage)
        fo.ShowSeveritySymbol = true ∧
    flagOn (intOr (intOr fo.ShowTimeStamp fo.ShowSeveritySymbol) fo.ShowMessage)
        fo.ShowSeverityTxt = false ∧
    flagOn (intOr (intOr fo.ShowTimeStamp fo.ShowSeveritySymbol) fo.ShowMessage)
        fo.ShowMessage = true := by
  obtain ⟨t0, y0, _, m0, _, tx, _, yx, _, xm⟩ := hind
  refine ⟨?_, ?_, ?_, ?_⟩
  · rw [flagOn_iff, bits_intOr, bits_intOr]
    exact or_and_ne_zero_left _ _ _ (or_and_ne_zero_left _ _ _ (by rw [Nat.and_self]; exact t0))
  · rw [flagOn_iff, bits_intOr, bits_intOr]
    exact or_and_ne_zero_left _ _ _ (or_and_ne_zero_right _ _ _ (by rw [Nat.and_self]; exact y0))
  · rw [flagOn_false_iff, bits_intOr, bits_intOr]
    exact or_and_eq_zero _ _ _ (or_and_eq_zero _ _ _ tx yx) (by rw [Nat.and_comm]; exact xm)
  · rw [flagOn_iff, bits_intOr, bits_intOr]
    exact or_and_ne_zero_right _ _ _ (by rw [Nat.and_self]; exact m0)

/-! ## Ownership of the destination file -/

theorem openAfter_append (opened : List FILE) (a b : List Event) :
    openAfter opened (a ++ b) = openAfter (openAfter opened a) b := by
  unfold openAfter
  exact List.foldl_append _ _ _ _

theorem atMostOne_append (opened : List FILE) (a b : List Event)
    (ha : ∀ n, (openAfter opened (a.take n)).length ≤ 1)
    (hb : ∀ n, (openAfter (openAfter opened a) (b.take n)).length ≤ 1) :
    ∀ n, (openAfter opened ((a ++ b).take n)).length ≤ 1 := by
  intro n
  rw [List.take_append_eq_append_take, openAfter_append]
  by_cases hn : n ≤ a.length
  · have e : n - a.length = 0 := by omega
    rw [e, List.take_zero]
    exact ha n
  · rw [List.take_of_length_le (by omega : a.length ≤ n)]
    exact hb (n - a.length)

theorem setLogFile_trace (log : SimpleLog) (path : Option String) (r : Option FILE) :
    (∀ n, (openAfter log.pImpl.fp.toList
        ((SimpleLog.setLogFile log path r).2.2.take n)).length ≤ 1) ∧
    openAfter log.pImpl.fp.toList (SimpleLog.setLogFile log path r).2.2
      = (SimpleLog.setLogFile log path r).2.1.pImpl.fp.toList := by
  cases path with
  | none =>
    rw [setLogFile_none]
    cases hfp : log.pImpl.fp with
    | none =>
      refine ⟨fun n => ?_, rfl⟩
      simp [openAfter]
    | some f =>
      refine ⟨fun n => ?_, ?_⟩
      · rcases n with _ | n <;> simp [openAfter, applyEvent]
      · simp [openAfter, applyEvent]
  | some p =>
    rw [setLogFile_some]
    cases hfp : log.pImpl.fp with
    | none =>
      cases r with
      | none =>
        refine ⟨fun n => ?_, ?_⟩
        · rcases n with _ | n <;> simp [openAfter, applyEvent]
        · simp [openAfter, applyEvent]
      | some g =>
        refine ⟨fun n => ?_, ?_⟩
        · rcases n with _ | n <;> simp [openAfter, applyEvent]
        · simp [openAfter, applyEvent]
    | some f =>
      cases r with
      | none =>
        refine ⟨fun n => ?_, ?_⟩
        · rcases n with _ | _ | n <;> simp [openAfter, applyEvent]
        · simp [openAfter, applyEvent]
      | some g =>
        refine ⟨fun n => ?_, ?_⟩
        · rcases n with _ | _ | n <;> simp [openAfter, applyEvent]
        · simp [openAfter, applyEvent]

theorem setLogFileCalls_trace (calls : List (Option String × Option FILE)) :
    ∀ log : SimpleLog,
      (∀ n, (openAfter log.pImpl.fp.toList
          ((SimpleLog.setLogFileCalls log calls).2.take n)).length ≤ 1) ∧
      openAfter log.pImpl.fp.toList (SimpleLog.setLogFileCalls log calls).2
        = (SimpleLog.setLogFileCalls log calls).1.pImpl.fp.toList := by
  induction calls with
  | nil =>
    intro log
    refine ⟨fun n => ?_, rfl⟩
    cases hfp : log.pImpl.fp <;> simp [SimpleLog.setLogFileCalls, openAfter]
  | cons call rest ih =>
    intro log
    obtain ⟨s1, s2⟩ := setLogFile_trace log call.1 call.2
    obtain ⟨t1, t2⟩ := ih (SimpleLog.setLogFile log call.1 call.2).2.1
    simp only [SimpleLog.setLogFileCalls]
    refine ⟨atMostOne_append _ _ _ s1 (by rw [s2]; exact t1), ?_⟩
    rw [openAfter_append, s2, t2]

theorem dtor_trace (log : SimpleLog) :
    (∀ n, (openAfter log.pImpl.fp.toList ((SimpleLog.dtor log).2.take n)).length ≤ 1) ∧
    openAfter log.pImpl.fp.toList (SimpleLog.dtor log).2 = [] ∧
    (SimpleLog.dtor log).1.pImpl.fp = none := by
  obtain ⟨s1, s2⟩ := setLogFile_trace log none none
  have e : (SimpleLog.dtor log).2 = (SimpleLog.setLogFile log none none).2.2 := by
    unfold SimpleLog.dtor SimpleLog.Impl.dtor
    simp only [setLogFile_none, List.append_nil]
  rw [e]
  refine ⟨s1, ?_, ?_⟩
  · rw [s2, setLogFile_none]; rfl
  · unfold SimpleLog.dtor SimpleLog.Impl.dtor
    simp only [setLogFile_none]

theorem logV_events (fo : FormatOption) (self : SimpleLog.Impl) (clk : Clock)
    (writeResult : Int) (s : SimpleLog.Impl.Severity) (m : List Char)
    (res : Int × List Event)
    (h : SimpleLog.Impl.logV fo self clk writeResult s m = some res) :
    ∃ bytes, res.2 = [Event.write (destination self s) bytes] := by
  unfold SimpleLog.Impl.logV at h
  cases hr : renderLine fo self clk s m with
  | none => rw [hr] at h; cases h
  | some st =>
    rw [hr, Option.some_bind] at h
    cases h
    exact ⟨_, rfl⟩

/-! ## Bounds on the index -/

theorem contribution_symbol_length (fo : FormatOption) (opts : Int) (clk : Clock)
    (s : SimpleLog.Impl.Severity) (m : List Char) :
    (contribution fo opts clk s m Stage.SeveritySymbol).length ≤ 5 := by
  unfold contribution
  split
  · cases s <;> simp only [stageText, severitySymbolText, severityTxtText] <;> decide
  · exact Nat.zero_le _

theorem contribution_txt_length (fo : FormatOption) (opts : Int) (clk : Clock)
    (s : SimpleLog.Impl.Severity) (m : List Char) :
    (contribution fo opts clk s m Stage.SeverityTxt).length ≤ 10 := by
  unfold contribution
  split
  · cases s <;> simp only [stageText, severitySymbolText, severityTxtText] <;> decide
  · exact Nat.zero_le _

theorem contribution_timeStamp_length (fo : FormatOption) (opts : Int) (clk : Clock)
    (s : SimpleLog.Impl.Severity) (m : List Char) :
    (contribution fo opts clk s m Stage.TimeStamp).length
      ≤ (timeStampText clk).length := by
  unfold contribution
  split
  · exact Nat.le_refl _
  · exact Nat.zero_le _

theorem terminateLine_length (st fin : Line) (h : terminateLine st = some fin) :
    fin.1.length = st.1.length := by
  unfold terminateLine store at h
  by_cases h1 : st.2 < st.1.length
  · rw [if_pos h1, Option.some_bind] at h
    simp only [] at h
    by_cases h2 : sizeAdd st.2 1 < (st.1.set st.2 '\n').length
    · rw [if_pos h2, Option.some_bind] at h
      cases h
      simp only [List.length_set]
    · rw [if_neg h2] at h
      cases h
  · rw [if_neg h1] at h
    cases h

/-! ## What a session closes -/

theorem closes_append (opened : List FILE) (a b : List Event)
    (ha : ∀ n f, a[n]? = some (Event.fclose f) → f ∈ openAfter opened (a.take n))
    (hb : ∀ n f, b[n]? = some (Event.fclose f) →
      f ∈ openAfter (openAfter opened a) (b.take n)) :
    ∀ n f, (a ++ b)[n]? = some (Event.fclose f) →
      f ∈ openAfter opened ((a ++ b).take n) := by
  intro n f h
  by_cases hn : n < a.length
  · rw [List.getElem?_append_left hn] at h
    rw [List.take_append_of_le_length (by omega)]
    exact ha n f h
  · rw [List.getElem?_append_right (by omega)] at h
    rw [List.take_append_eq_append_take, List.take_of_length_le (by omega),
      openAfter_append]
    exact hb _ f h

theorem setLogFile_closes (log : SimpleLog) (path : Option String) (r : Option FILE) :
    ∀ n f, (SimpleLog.setLogFile log path r).2.2[n]? = some (Event.fclose f) →
      f ∈ openAfter log.pImpl.fp.toList ((SimpleLog.setLogFile log path r).2.2.take n) := by
  intro n f
  cases path with
  | none =>
    rw [setLogFile_none]
    cases hfp : log.pImpl.fp with
    | none => intro h; simp at h
    | some g =>
      rcases n with _ | n
      · intro h
        simp at h
        simp [openAfter, h]
      · intro h; simp at h
  | some p =>
    rw [setLogFile_some]
    cases hfp : log.pImpl.fp with
    | none =>
      rcases n with _ | n
      · intro h; simp at h
      · intro h; simp at h
    | some g =>
      rcases n with _ | _ | n
      · intro h
        simp at h
        simp [openAfter, h]
      · intro h; simp at h
      · intro h; simp at h

theorem call_trace (fo : FormatOption) (log : SimpleLog) (c : Call)
    (res : SimpleLog × List Event) (h : SimpleLog.call fo log c = some res) :
    (∀ n f, res.2[n]? = some (Event.fclose f) →
      f ∈ openAfter log.pImpl.fp.toList (res.2.take n)) ∧
    openAfter log.pImpl.fp.toList res.2 = res.1.pImpl.fp.toList := by
  have hlog : ∀ (x : Option (Int × List Event)) (s : SimpleLog.Impl.Severity)
      (clk : Clock) (w : Int) (m : List Char),
      x = SimpleLog.Impl.logV fo log.pImpl clk w s m →
      (x.bind fun r => some (log, r.2)) = some res →
      (∀ n f, res.2[n]? = some (Event.fclose f) →
        f ∈ openAfter log.pImpl.fp.toList (res.2.take n)) ∧
      openAfter log.pImpl.fp.toList res.2 = res.1.pImpl.fp.toList := by
    intro x s clk w m hx hb
    cases x with
    | none => cases hb
    | some r =>
      obtain ⟨bytes, hbytes⟩ := logV_events fo log.pImpl clk w s m r hx.symm
      rw [Option.some_bind] at hb
      cases hb
      simp only [hbytes]
      refine ⟨fun n f hn => ?_, rfl⟩
      rcases n with _ | n <;> simp at hn
  cases c with
  | setLogFile p r =>
    cases h
    exact ⟨setLogFile_closes log p r, (setLogFile_trace log p r).2⟩
  | setOutputFormat o =>
    cases h
    exact ⟨fun n f hn => by simp at hn, rfl⟩
  | setFileDescriptors a b =>
    cases h
    exact ⟨fun n f hn => by simp at hn, rfl⟩
  | info clk w m => exact hlog _ _ clk w m rfl h
  | error clk w m => exact hlog _ _ clk w m rfl h
  | warning clk w m => exact hlog _ _ clk w m rfl h

theorem calls_trace (fo : FormatOption) (cs : List Call) :
    ∀ (log : SimpleLog) (res : SimpleLog × List Event),
      SimpleLog.calls fo log cs = some res →
      (∀ n f, res.2[n]? = some (Event.fclose f) →
        f ∈ openAfter log.pImpl.fp.toList (res.2.take n)) ∧
      openAfter log.pImpl.fp.toList res.2 = res.1.pImpl.fp.toList := by
  induction cs with
  | nil =>
    intro log res h
    cases h
    exact ⟨fun n f hn => by simp at hn, rfl⟩
  | cons c rest ih =>
    intro log res h
    simp only [SimpleLog.calls] at h
    cases hstep : SimpleLog.call fo log c with
    | none => rw [hstep] at h; cases h
    | some step =>
      rw [hstep, Option.some_bind] at h
      cases htail : SimpleLog.calls fo step.1 rest with
      | none => rw [htail] at h; cases h
      | some tail =>
        rw [htail, Option.some_bind] at h
        cases h
        obtain ⟨s1, s2⟩ := call_trace fo log c step hstep
        obtain ⟨t1, t2⟩ := ih step.1 tail htail
        refine ⟨closes_append _ _ _ s1 (by rw [s2]; exact t1), ?_⟩
        rw [openAfter_append, s2, t2]

theorem mem_openAfter (evs : List Event) :
    ∀ (opened : List FILE) (f : FILE), f ∈ openAfter opened evs →
      f ∈ opened ∨ ∃ (k : Nat) (path mode : String),
        evs[k]? = some (Event.fopen path mode (some f)) := by
  induction evs with
  | nil => intro opened f h; exact Or.inl h
  | cons e es ih =>
    intro opened f h
    have h1 : f ∈ openAfter (applyEvent opened e) es := h
    rcases ih _ f h1 with h2 | ⟨k, path, mode, hk⟩
    · cases e with
      | fopen path mode r =>
        cases r with
        | none => exact Or.inl h2
        | some g =>
          rcases List.mem_cons.1 h2 with h3 | h3
          · exact Or.inr ⟨0, path, mode, by rw [h3, List.getElem?_cons_zero]⟩
          · exact Or.inl h3
      | fclose g => exact Or.inl (List.mem_of_mem_erase h2)
      | write fd bytes => exact Or.inl h2
    · exact Or.inr ⟨k + 1, path, mode, by rw [List.getElem?_cons_succ]; exact hk⟩

theorem dtor_events (log : SimpleLog) :
    (SimpleLog.dtor log).2 = (SimpleLog.setLogFile log none none).2.2 := by
  unfold SimpleLog.dtor SimpleLog.Impl.dtor
  simp only [setLogFile_none, List.append_nil]

theorem session_closes (fo : FormatOption) (filenoStdout filenoStderr : Int)
    (logFilePath : Option String) (fopenResult : Option FILE) (calls : List Call)
    (res : SimpleLog × List Event)
    (h : SimpleLog.session fo filenoStdout filenoStderr logFilePath fopenResult calls
      = some res) :
    ∀ n f, res.2[n]? = some (Event.fclose f) → f ∈ openAfter [] (res.2.take n) := by
  have hc : SimpleLog.ctor fo filenoStdout filenoStderr logFilePath fopenResult
      = Except.ok
        ((SimpleLog.setLogFile
            { pImpl := SimpleLog.Impl.ctor fo filenoStdout filenoStderr }
            logFilePath fopenResult).2.1,
          (SimpleLog.setLogFile
            { pImpl := SimpleLog.Impl.ctor fo filenoStdout filenoStderr }
            logFilePath fopenResult).2.2) := rfl
  have c1 := setLogFile_closes
    { pImpl := SimpleLog.Impl.ctor fo filenoStdout filenoStderr } logFilePath fopenResult
  have c2 := (setLogFile_trace
    { pImpl := SimpleLog.Impl.ctor fo filenoStdout filenoStderr }
    logFilePath fopenResult).2
  have hinit : (SimpleLog.Impl.ctor fo filenoStdout filenoStderr).fp.toList = [] := rfl
  simp only [hinit] at c1 c2
  generalize (SimpleLog.setLogFile
    { pImpl := SimpleLog.Impl.ctor fo filenoStdout filenoStderr }
    logFilePath fopenResult).2.1 = log0 at hc c1 c2
  generalize (SimpleLog.setLogFile
    { pImpl := SimpleLog.Impl.ctor fo filenoStdout filenoStderr }
    logFilePath fopenResult).2.2 = ev0 at hc c1 c2
  unfold SimpleLog.session at h
  rw [hc] at h
  simp only [] at h
  cases hrun : SimpleLog.calls fo log0 calls with
  | none => rw [hrun] at h; cases h
  | some run =>
    rw [hrun, Option.some_bind] at h
    cases h
    obtain ⟨r1, r2⟩ := calls_trace fo calls log0 run hrun
    have d1 := setLogFile_closes run.1 none none
    rw [← dtor_events] at d1
    refine closes_append _ _ _ (closes_append _ _ _ c1 (by rw [c2]; exact r1)) ?_
    rw [openAfter_append, c2, r2]
    exact d1

theorem timeStampText_length (clk : Clock) (digits : List Char)
    (hdate : clk.date.length = 19)
    (hfrac : clk.fractionOfSecond = '0' :: '.' :: digits) (hdigits : digits.length = 6) :
    timeStampText clk = clk.date ++ '.' :: digits ∧ (timeStampText clk).length = 26 := by
  have hd : fractionDigits clk = digits := by
    unfold fractionDigits
    rw [hfrac]
    show List.take 7 digits = digits
    exact List.take_of_length_le (by omega)
  unfold timeStampText
  rw [hd]
  refine ⟨rfl, ?_⟩
  rw [List.length_append, List.length_cons]
  omega

/-! ## Claims -/

/-- C1: when the concatenation `C` of the texts of the enabled stages (timestamp,
severity symbol, severity text, message, in that order) is shorter than 1022
characters, `logV` writes exactly `C` followed by a newline; in particular `info` of
a message expanding to `hello`, with only `ShowMessage` enabled, writes `hello\n`. -/
theorem C1_logV_writes_enabled_stages_in_order (fo : FormatOption)
    (self : SimpleLog.Impl) (clk : Clock) (writeResult : Int)
    (s : SimpleLog.Impl.Severity) (m C : List Char)
    (hC : C =
      (if flagOn self.formatOptions fo.ShowTimeStamp then timeStampText clk else [])
      ++ (if flagOn self.formatOptions fo.ShowSeveritySymbol
            then severitySymbolText s else [])
      ++ (if flagOn self.formatOptions fo.ShowSeverityTxt then severityTxtText s else [])
      ++ (if flagOn self.formatOptions fo.ShowMessage then m else []))
    (hlen : C.length < 1022) :
    SimpleLog.Impl.logV fo self clk writeResult s m
        = some (0, [Event.write (destination self s) (C ++ ['\n'])])
    ∧ (∀ log : SimpleLog,
        flagOn log.pImpl.formatOptions fo.ShowTimeStamp = false →
        flagOn log.pImpl.formatOptions fo.ShowSeveritySymbol = false →
        flagOn log.pImpl.formatOptions fo.ShowSeverityTxt = false →
        flagOn log.pImpl.formatOptions fo.ShowMessage = true →
        SimpleLog.info fo log clk writeResult "hello".toList
          = some (0, [Event.write (destination log.pImpl SimpleLog.Impl.Severity.Info)
              "hello\n".toList])) := by
  have hfull : fullText fo self.formatOptions clk s m = C := by rw [hC]; rfl
  constructor
  · rw [← hfull] at hlen
    obtain ⟨h1, h2⟩ := fullText_short fo _ clk s m hlen
    rw [logV_eq fo self clk writeResult s m h1 h2, clip_of_short _ hlen, hfull]
  · intro log h1 h2 h3 h4
    have hf : fullText fo log.pImpl.formatOptions clk SimpleLog.Impl.Severity.Info
        "hello".toList = "hello".toList := by
      simp [fullText, prefixText, contribution, Stage.flag, stageText, h1, h2, h3, h4]
    have hl : (fullText fo log.pImpl.formatOptions clk SimpleLog.Impl.Severity.Info
        "hello".toList).length < 1022 := by rw [hf]; decide
    obtain ⟨g1, g2⟩ := fullText_short fo _ clk _ _ hl
    unfold SimpleLog.info
    rw [logV_eq fo log.pImpl clk writeResult _ _ g1 g2, clip_of_short _ hl, hf]
    rfl

theorem C1_witness :
    (("2024-01-02 03:04:05.123456 !!! Error - x=5".toList).length < 1022) ∧
    SimpleLog.Impl.logV exampleFlags
      { fp := none, formatOptions := 15, fdStdout := 1, fdStderr := 2 } exampleClock 0
      SimpleLog.Impl.Severity.Error "x=5".toList
      = some (0, [Event.write 2 "2024-01-02 03:04:05.123456 !!! Error - x=5\n".toList]) ∧
    SimpleLog.info exampleFlags
      { pImpl := { fp := none, formatOptions := 8, fdStdout := 1, fdStderr := 2 } }
      exampleClock 0 "hello".toList
      = some (0, [Event.write 1 "hello\n".toList]) :=
  have h := C1_logV_writes_enabled_stages_in_order exampleFlags
    { fp := none, formatOptions := 15, fdStdout := 1, fdStderr := 2 } exampleClock 0
    SimpleLog.Impl.Severity.Error "x=5".toList
    "2024-01-02 03:04:05.123456 !!! Error - x=5".toList (by decide) (by decide)
  ⟨by decide, h.1, h.2 _ (by decide) (by decide) (by decide) (by decide)⟩

/-- C2, evaluated at a message of 1023 characters with only `ShowMessage` enabled:
`logV` writes the first 1021 characters of the message, then a NUL, then the
newline, which is not the first 1022 characters followed by a newline. -/
theorem C2_overlong_message_written_with_nul :
    SimpleLog.Impl.logV exampleFlags
        { fp := none, formatOptions := 8, fdStdout := 1, fdStderr := 2 } exampleClock 0
        SimpleLog.Impl.Severity.Info (List.replicate 1023 'a')
      = some (0, [Event.write 1 (List.replicate 1021 'a' ++ [NUL, '\n'])])
    ∧ List.replicate 1021 'a' ++ [NUL, '\n']
      ≠ (fullText exampleFlags 8 exampleClock SimpleLog.Impl.Severity.Info
          (List.replicate 1023 'a')).take 1022 ++ ['\n'] := by
  have f1 : flagOn 8 exampleFlags.ShowTimeStamp = false := by decide
  have f2 : flagOn 8 exampleFlags.ShowSeveritySymbol = false := by decide
  have f3 : flagOn 8 exampleFlags.ShowSeverityTxt = false := by decide
  have f4 : flagOn 8 exampleFlags.ShowMessage = true := by decide
  have hpre : prefixText exampleFlags 8 exampleClock SimpleLog.Impl.Severity.Info = [] := by
    simp [prefixText, contribution, Stage.flag, f1, f2, f3]
  have hmsg : contribution exampleFlags 8 exampleClock SimpleLog.Impl.Severity.Info
      (List.replicate 1023 'a') Stage.Message = List.replicate 1023 'a' := by
    simp [contribution, Stage.flag, stageText, f4]
  have hfull : fullText exampleFlags 8 exampleClock SimpleLog.Impl.Severity.Info
      (List.replicate 1023 'a') = List.replicate 1023 'a' := by
    rw [fullText, hpre, hmsg, List.nil_append]
  constructor
  · rw [logV_eq exampleFlags _ exampleClock 0 _ _ (by rw [hpre]; decide)
      (by rw [hmsg, List.length_replicate]; decide), hfull]
    have hclip : clip (List.replicate 1023 'a') = List.replicate 1021 'a' ++ [NUL] := by
      rw [clip, if_neg (by rw [List.length_replicate]; decide), List.take_replicate]
      rfl
    rw [hclip, List.append_assoc]
    rfl
  · rw [hfull, List.take_replicate]
    intro h
    have hmem : NUL ∈ List.replicate 1021 'a' ++ [NUL, '\n'] :=
      List.mem_append_right _ (List.mem_cons_self _ _)
    rw [h] at hmem
    rcases List.mem_append.1 hmem with h1 | h1
    · exact absurd (List.mem_replicate.1 h1).2 (by decide)
    · exact absurd (List.mem_singleton.1 h1) (by decide)

/-- C3: `logV` makes exactly one call, a `write` of the rendered line, to the
descriptor of the destination file if one is open, else to the stderr handle for
Error and to the stdout handle for Info and Warning; the handles are those stored by
`setFileDescriptors`. -/
theorem C3_logV_single_write_to_selected_destination (fo : FormatOption)
    (self : SimpleLog.Impl) (clk : Clock) (writeResult : Int)
    (s : SimpleLog.Impl.Severity) (m : List Char) (log : SimpleLog)
    (fdOut fdErr : Int)
    (hpre : (prefixText fo self.formatOptions clk s).length ≤ 1022)
    (hmsg : (contribution fo self.formatOptions clk s m Stage.Message).length
      ≤ INT_MAX) :
    (∃ line : List Char,
      SimpleLog.Impl.logV fo self clk writeResult s m
        = some ((0 : Int), [Event.write
            (match self.fp with
              | some f => f.fileno
              | none =>
                if s = SimpleLog.Impl.Severity.Error then self.fdStderr
                else self.fdStdout) line]) ∧
      line = clip (fullText fo self.formatOptions clk s m) ++ ['\n'] ∧
      line.length = min (fullText fo self.formatOptions clk s m).length 1022 + 1) ∧
    (SimpleLog.setFileDescriptors log fdOut fdErr).pImpl.fdStdout = fdOut ∧
    (SimpleLog.setFileDescriptors log fdOut fdErr).pImpl.fdStderr = fdErr ∧
    (SimpleLog.setFileDescriptors log fdOut fdErr).pImpl.fp = log.pImpl.fp ∧
    (SimpleLog.setFileDescriptors log fdOut fdErr).pImpl.formatOptions
      = log.pImpl.formatOptions ∧
    (∀ (path : Option String) (r : Option FILE),
      (SimpleLog.setLogFile log path r).2.1.pImpl.fdStdout = log.pImpl.fdStdout ∧
      (SimpleLog.setLogFile log path r).2.1.pImpl.fdStderr = log.pImpl.fdStderr) ∧
    (∀ opts : Int,
      (SimpleLog.setOutputFormat log opts).pImpl.fdStdout = log.pImpl.fdStdout ∧
      (SimpleLog.setOutputFormat log opts).pImpl.fdStderr = log.pImpl.fdStderr) := by
  refine ⟨⟨_, ?_, rfl, ?_⟩, rfl, rfl, rfl, rfl, ?_, fun _ => ⟨rfl, rfl⟩⟩
  · rw [logV_eq fo self clk writeResult s m hpre hmsg, destination_eq]
  · rw [List.length_append, clip_length]
    rfl
  · intro path r
    cases path with
    | none => rw [setLogFile_none]; exact ⟨rfl, rfl⟩
    | some p => rw [setLogFile_some]; exact ⟨rfl, rfl⟩

theorem C3_witness :
    ((prefixText exampleFlags 11 exampleClock SimpleLog.Impl.Severity.Warning).length
        ≤ 1022 ∧
      (contribution exampleFlags 11 exampleClock SimpleLog.Impl.Severity.Warning
        "disk".toList Stage.Message).length ≤ INT_MAX) ∧
    ∃ line : List Char,
      SimpleLog.Impl.logV exampleFlags
        { fp := some { stream := 7, fileno := 5 }, formatOptions := 11, fdStdout := 1,
          fdStderr := 2 } exampleClock 4 SimpleLog.Impl.Severity.Warning "disk".toList
        = some ((0 : Int), [Event.write 5 line]) ∧
      line = clip (fullText exampleFlags 11 exampleClock
        SimpleLog.Impl.Severity.Warning "disk".toList) ++ ['\n'] ∧
      line.length = min (fullText exampleFlags 11 exampleClock
        SimpleLog.Impl.Severity.Warning "disk".toList).length 1022 + 1 :=
  ⟨⟨by decide, by decide⟩,
    (C3_logV_single_write_to_selected_destination exampleFlags
      { fp := some { stream := 7, fileno := 5 }, formatOptions := 11, fdStdout := 1,
        fdStderr := 2 } exampleClock 4 SimpleLog.Impl.Severity.Warning "disk".toList
      { pImpl := { fp := none, formatOptions := 11, fdStdout := 1, fdStderr := 2 } } 3 4
      (by decide) (by decide)).1⟩

/-- C4: when the open for append fails, `setLogFile(path)` returns -1, has closed the
previously open file, leaves the logger without destination file, and every later
log call is written to the configured stdout handle (Info, Warning) or stderr
handle (Error). -/
theorem C4_setLogFile_failed_open_reverts_to_streams (fo : FormatOption)
    (log : SimpleLog) (path : String) (clk : Clock) (writeResult : Int)
    (s : SimpleLog.Impl.Severity) (m : List Char) :
    (SimpleLog.setLogFile log (some path) none).1 = -1 ∧
    (SimpleLog.setLogFile log (some path) none).2.1.pImpl
      = { log.pImpl with fp := none } ∧
    (SimpleLog.setLogFile log (some path) none).2.2
      = (match log.pImpl.fp with
          | some f => [Event.fclose f]
          | none => []) ++ [Event.fopen path "a" none] ∧
    ((prefixText fo log.pImpl.formatOptions clk s).length ≤ 1022 →
      (contribution fo log.pImpl.formatOptions clk s m Stage.Message).length
        ≤ INT_MAX →
      SimpleLog.Impl.logV fo (SimpleLog.setLogFile log (some path) none).2.1.pImpl clk
          writeResult s m
        = some (0, [Event.write
            (if s = SimpleLog.Impl.Severity.Error then log.pImpl.fdStderr
              else log.pImpl.fdStdout)
            (clip (fullText fo log.pImpl.formatOptions clk s m) ++ ['\n'])])) := by
  rw [setLogFile_some]
  refine ⟨rfl, rfl, rfl, ?_⟩
  intro hpre hmsg
  exact logV_eq fo { log.pImpl with fp := none } clk writeResult s m hpre hmsg

theorem C4_witness :
    (SimpleLog.setLogFile
      { pImpl := { fp := some { stream := 7, fileno := 5 }, formatOptions := 11,
                   fdStdout := 1, fdStderr := 2 } }
      (some "/nonexistent/dir/file.log") none).1 = -1 ∧
    SimpleLog.Impl.logV exampleFlags (SimpleLog.setLogFile
        { pImpl := { fp := some { stream := 7, fileno := 5 }, formatOptions := 11,
                     fdStdout := 1, fdStderr := 2 } }
        (some "/nonexistent/dir/file.log") none).2.1.pImpl exampleClock 0
        SimpleLog.Impl.Severity.Error "x=5".toList
      = some (0, [Event.write 2
          (clip (fullText exampleFlags 11 exampleClock SimpleLog.Impl.Severity.Error
            "x=5".toList) ++ ['\n'])]) :=
  have h := C4_setLogFile_failed_open_reverts_to_streams exampleFlags
    { pImpl := { fp := some { stream := 7, fileno := 5 }, formatOptions := 11,
                 fdStdout := 1, fdStderr := 2 } }
    "/nonexistent/dir/file.log" exampleClock 0 SimpleLog.Impl.Severity.Error
    "x=5".toList
  ⟨h.1, h.2.2.2 (by decide) (by decide)⟩

/-- C5, evaluated: when the open fails, the constructor `SimpleLog(path)` still
returns normally, with a logger that has no destination file; the -1 returned by
`setLogFile` is not looked at. -/
theorem C5_ctor_returns_normally_when_open_fails (fo : FormatOption)
    (filenoStdout filenoStderr : Int) (path : String) :
    SimpleLog.ctor fo filenoStdout filenoStderr (some path) none
      = Except.ok ({ pImpl := SimpleLog.Impl.ctor fo filenoStdout filenoStderr },
          [Event.fopen path "a" none]) ∧
    (SimpleLog.setLogFile { pImpl := SimpleLog.Impl.ctor fo filenoStdout filenoStderr }
      (some path) none).1 = -1 := by
  constructor
  · unfold SimpleLog.ctor
    simp only [setLogFile_some]
    rfl
  · rw [setLogFile_some]
    rfl

/-- C6, refuted at a logger with an open file: `setLogFile("")` with a failing open
returns -1 and has attempted the open, unlike `setLogFile(NULL)`. -/
theorem C6_empty_path_counterexample :
    (SimpleLog.setLogFile
      { pImpl := { fp := some { stream := 7, fileno := 5 }, formatOptions := 11,
                   fdStdout := 1, fdStderr := 2 } } (some "") none).1 ≠ 0 ∧
    (SimpleLog.setLogFile
      { pImpl := { fp := some { stream := 7, fileno := 5 }, formatOptions := 11,
                   fdStdout := 1, fdStderr := 2 } } (some "") none).2.2
      = [Event.fclose { stream := 7, fileno := 5 }, Event.fopen "" "a" none] ∧
    (SimpleLog.setLogFile
      { pImpl := { fp := some { stream := 7, fileno := 5 }, formatOptions := 11,
                   fdStdout := 1, fdStderr := 2 } } none none).2.2
      = [Event.fclose { stream := 7, fileno := 5 }] := by
  decide

/-- C6 as amended: an empty path is handled like every other non-null path.  After
closing the open file, `fopen("", "a")` is attempted; the result is 0 with the opened
file as destination when the open succeeds, -1 with no destination file when it
fails. -/
theorem C6_setLogFile_empty_path_attempts_open (log : SimpleLog) (r : Option FILE) :
    (SimpleLog.setLogFile log (some "") r).1 = (if r = none then -1 else 0) ∧
    (SimpleLog.setLogFile log (some "") r).2.1.pImpl = { log.pImpl with fp := r } ∧
    (SimpleLog.setLogFile log (some "") r).2.2
      = (match log.pImpl.fp with
          | some f => [Event.fclose f]
          | none => []) ++ [Event.fopen "" "a" r] := by
  rw [setLogFile_some]
  exact ⟨rfl, rfl, rfl⟩

/-- C7: `setLogFile(NULL)` returns 0, closes the open destination file if there is
one, attempts no open, and leaves the logger without destination file, so that every
later log call is written to the configured stdout handle (Info, Warning) or
stderr handle (Error). -/
theorem C7_setLogFile_null_always_succeeds (fo : FormatOption) (log : SimpleLog)
    (r : Option FILE) (clk : Clock) (writeResult : Int)
    (s : SimpleLog.Impl.Severity) (m : List Char) :
    (SimpleLog.setLogFile log none r).1 = 0 ∧
    (SimpleLog.setLogFile log none r).2.1.pImpl = { log.pImpl with fp := none } ∧
    (SimpleLog.setLogFile log none r).2.2
      = (match log.pImpl.fp with
          | some f => [Event.fclose f]
          | none => []) ∧
    ((prefixText fo log.pImpl.formatOptions clk s).length ≤ 1022 →
      (contribution fo log.pImpl.formatOptions clk s m Stage.Message).length
        ≤ INT_MAX →
      SimpleLog.Impl.logV fo (SimpleLog.setLogFile log none r).2.1.pImpl clk
          writeResult s m
        = some (0, [Event.write
            (if s = SimpleLog.Impl.Severity.Error then log.pImpl.fdStderr
              else log.pImpl.fdStdout)
            (clip (fullText fo log.pImpl.formatOptions clk s m) ++ ['\n'])])) := by
  rw [setLogFile_none]
  refine ⟨rfl, rfl, rfl, ?_⟩
  intro hpre hmsg
  exact logV_eq fo { log.pImpl with fp := none } clk writeResult s m hpre hmsg

theorem C7_witness :
    (SimpleLog.setLogFile
      { pImpl := { fp := some { stream := 7, fileno := 5 }, formatOptions := 11,
                   fdStdout := 1, fdStderr := 2 } } none none).2.2
      = [Event.fclose { stream := 7, fileno := 5 }] ∧
    SimpleLog.Impl.logV exampleFlags (SimpleLog.setLogFile
        { pImpl := { fp := some { stream := 7, fileno := 5 }, formatOptions := 11,
                     fdStdout := 1, fdStderr := 2 } } none none).2.1.pImpl exampleClock 0
        SimpleLog.Impl.Severity.Warning "x=5".toList
      = some (0, [Event.write 1
          (clip (fullText exampleFlags 11 exampleClock SimpleLog.Impl.Severity.Warning
            "x=5".toList) ++ ['\n'])]) :=
  have h := C7_setLogFile_null_always_succeeds exampleFlags
    { pImpl := { fp := some { stream := 7, fileno := 5 }, formatOptions := 11,
                 fdStdout := 1, fdStderr := 2 } }
    none exampleClock 0 SimpleLog.Impl.Severity.Warning "x=5".toList
  ⟨h.2.2.1, h.2.2.2 (by decide) (by decide)⟩

/-- C8, refuted with the flags `ShowTimeStamp` and `ShowMessage` and a message of
1021 characters: the line with the timestamp has 1023 characters, the line without
it has 1022, so the second is not the first with the 26 timestamp characters
removed. -/
theorem C8_truncated_line_counterexample :
    ∃ lineF lineF1 : List Char,
      SimpleLog.Impl.logV exampleFlags
          { fp := none, formatOptions := 9, fdStdout := 1, fdStderr := 2 } exampleClock
          0 SimpleLog.Impl.Severity.Info (List.replicate 1021 'a')
        = some ((0 : Int), [Event.write 1 lineF]) ∧
      SimpleLog.Impl.logV exampleFlags
          { fp := none, formatOptions := 8, fdStdout := 1, fdStderr := 2 } exampleClock
          0 SimpleLog.Impl.Severity.Info (List.replicate 1021 'a')
        = some ((0 : Int), [Event.write 1 lineF1]) ∧
      ¬ ∃ a b : List Char,
        lineF = a ++ timeStampText exampleClock ++ b ∧ lineF1 = a ++ b := by
  have f1 : flagOn 9 exampleFlags.ShowTimeStamp = true := by decide
  have f2 : flagOn 9 exampleFlags.ShowSeveritySymbol = false := by decide
  have f3 : flagOn 9 exampleFlags.ShowSeverityTxt = false := by decide
  have f4 : flagOn 9 exampleFlags.ShowMessage = true := by decide
  have g1 : flagOn 8 exampleFlags.ShowTimeStamp = false := by decide
  have g2 : flagOn 8 exampleFlags.ShowSeveritySymbol = false := by decide
  have g3 : flagOn 8 exampleFlags.ShowSeverityTxt = false := by decide
  have g4 : flagOn 8 exampleFlags.ShowMessage = true := by decide
  have hts : (timeStampText exampleClock).length = 26 := by decide
  have hp9 : (prefixText exampleFlags 9 exampleClock
      SimpleLog.Impl.Severity.Info).length = 26 := by
    simp [prefixText, contribution, Stage.flag, stageText, f1, f2, f3, hts]
  have hp8 : (prefixText exampleFlags 8 exampleClock
      SimpleLog.Impl.Severity.Info).length = 0 := by
    simp [prefixText, contribution, Stage.flag, g1, g2, g3]
  have hm9 : (contribution exampleFlags 9 exampleClock SimpleLog.Impl.Severity.Info
      (List.replicate 1021 'a') Stage.Message).length = 1021 := by
    rw [contribution_on _ _ _ _ _ _ f4]
    exact List.length_replicate _ _
  have hm8 : (contribution exampleFlags 8 exampleClock SimpleLog.Impl.Severity.Info
      (List.replicate 1021 'a') Stage.Message).length = 1021 := by
    rw [contribution_on _ _ _ _ _ _ g4]
    exact List.length_replicate _ _
  have hI : (1021 : Nat) ≤ INT_MAX := by decide
  refine ⟨_, _, logV_eq exampleFlags _ exampleClock 0 _ _ (by rw [hp9]; decide)
      (by rw [hm9]; exact hI),
    logV_eq exampleFlags _ exampleClock 0 _ _ (by rw [hp8]; decide)
      (by rw [hm8]; exact hI), ?_⟩
  rintro ⟨a, b, h1, h2⟩
  have l1 := congrArg List.length h1
  have l2 := congrArg List.length h2
  simp only [List.length_append, clip_length, fullText, hp9, hp8, hm9, hm8, hts,
    List.length_singleton] at l1 l2
  omega

/-- C8 as amended: when the full rendering under the options `F` is shorter than
1022 characters, and `F1` is `F` with the single enabled flag of stage `f` switched
off (every other flag as in `F`), the line written under `F1` is the line written
under `F` without the text of stage `f`: the contributions of the stages before and
after `f` and the trailing newline are the same. -/
theorem C8_flag_off_removes_only_that_stage (fo : FormatOption) (log : SimpleLog)
    (F1 : Int) (clk : Clock) (writeResult : Int) (s : SimpleLog.Impl.Severity)
    (m : List Char) (f : Stage)
    (hon : flagOn log.pImpl.formatOptions (f.flag fo) = true)
    (hoff : flagOn F1 (f.flag fo) = false)
    (hsame : ∀ g : Stage, g ≠ f →
      flagOn F1 (g.flag fo) = flagOn log.pImpl.formatOptions (g.flag fo))
    (hfit : (fullText fo log.pImpl.formatOptions clk s m).length < 1022) :
    SimpleLog.Impl.logV fo log.pImpl clk writeResult s m
      = some (0, [Event.write (destination log.pImpl s)
          (textBefore fo log.pImpl.formatOptions clk s m f ++ stageText clk s m f
            ++ textAfter fo log.pImpl.formatOptions clk s m f ++ ['\n'])]) ∧
    SimpleLog.Impl.logV fo (SimpleLog.setOutputFormat log F1).pImpl clk writeResult s m
      = some (0, [Event.write (destination log.pImpl s)
          (textBefore fo log.pImpl.formatOptions clk s m f
            ++ textAfter fo log.pImpl.formatOptions clk s m f ++ ['\n'])]) := by
  have hsplit := fullText_split fo log.pImpl.formatOptions clk s m f
  rw [contribution_on fo _ clk s m f hon] at hsplit
  have hwithout := fullText_without fo log.pImpl.formatOptions F1 clk s m f hoff hsame
  have hfit1 : (fullText fo F1 clk s m).length < 1022 := by
    rw [hwithout]
    rw [hsplit] at hfit
    simp only [List.length_append] at hfit ⊢
    omega
  constructor
  · obtain ⟨h1, h2⟩ := fullText_short fo _ clk s m hfit
    rw [logV_eq fo log.pImpl clk writeResult s m h1 h2, clip_of_short _ hfit, hsplit]
  · have e : (SimpleLog.setOutputFormat log F1).pImpl.formatOptions = F1 := rfl
    obtain ⟨h1, h2⟩ := fullText_short fo _ clk s m hfit1
    rw [logV_eq fo (SimpleLog.setOutputFormat log F1).pImpl clk writeResult s m
      (by rw [e]; exact h1) (by rw [e]; exact h2), e, clip_of_short _ hfit1, hwithout]
    rfl

theorem C8_witness :
    SimpleLog.Impl.logV exampleFlags
        { fp := none, formatOptions := 15, fdStdout := 1, fdStderr := 2 } exampleClock 0
        SimpleLog.Impl.Severity.Error "x=5".toList
      = some (0, [Event.write 2
          ("2024-01-02 03:04:05.123456".toList ++ " !!! ".toList ++ "Error - x=5".toList
            ++ ['\n'])]) ∧
    SimpleLog.Impl.logV exampleFlags
        { fp := none, formatOptions := 13, fdStdout := 1, fdStderr := 2 } exampleClock 0
        SimpleLog.Impl.Severity.Error "x=5".toList
      = some (0, [Event.write 2
          ("2024-01-02 03:04:05.123456".toList ++ "Error - x=5".toList ++ ['\n'])]) :=
  C8_flag_off_removes_only_that_stage exampleFlags
    { pImpl := { fp := none, formatOptions := 15, fdStdout := 1, fdStderr := 2 } } 13
    exampleClock 0 SimpleLog.Impl.Severity.Error "x=5".toList Stage.SeveritySymbol
    (by decide) (by decide)
    (by intro g hg; cases g <;> first | exact absurd rfl hg | decide)
    (by decide)

/-- C9: a freshly constructed logger has the format options
`ShowTimeStamp | ShowSeveritySymbol | ShowMessage`: the timestamp, severity symbol and
message stages are enabled and the severity text stage is not, so that `error` with a
message expanding to `m` (short enough to fit) writes the timestamp, then `" !!! "`,
then `m`, then the newline, without `"Error - "`. -/
theorem C9_fresh_logger_default_format (fo : FormatOption) (hind : fo.Independent)
    (filenoStdout filenoStderr : Int) (path : Option String) (r : Option FILE)
    (clk : Clock) (writeResult : Int) (m : List Char)
    (hfit : (timeStampText clk).length + 5 + m.length < 1022) :
    ∃ (log : SimpleLog) (events : List Event),
      SimpleLog.ctor fo filenoStdout filenoStderr path r = Except.ok (log, events) ∧
      log.pImpl.formatOptions
        = intOr (intOr fo.ShowTimeStamp fo.ShowSeveritySymbol) fo.ShowMessage ∧
      flagOn log.pImpl.formatOptions fo.ShowTimeStamp = true ∧
      flagOn log.pImpl.formatOptions fo.ShowSeveritySymbol = true ∧
      flagOn log.pImpl.formatOptions fo.ShowSeverityTxt = false ∧
      flagOn log.pImpl.formatOptions fo.ShowMessage = true ∧
      SimpleLog.error fo log clk writeResult m
        = some (0, [Event.write (destination log.pImpl SimpleLog.Impl.Severity.Error)
            (timeStampText clk ++ " !!! ".toList ++ m ++ ['\n'])]) := by
  obtain ⟨d1, d2, d3, d4⟩ := default_flags fo hind
  have hopts : ∀ (p : Option String),
      (SimpleLog.setLogFile { pImpl := SimpleLog.Impl.ctor fo filenoStdout filenoStderr }
        p r).2.1.pImpl.formatOptions
      = intOr (intOr fo.ShowTimeStamp fo.ShowSeveritySymbol) fo.ShowMessage := by
    intro p
    cases p
    · rw [setLogFile_none]; rfl
    · rw [setLogFile_some]; rfl
  refine ⟨(SimpleLog.setLogFile
      { pImpl := SimpleLog.Impl.ctor fo filenoStdout filenoStderr } path r).2.1,
    (SimpleLog.setLogFile
      { pImpl := SimpleLog.Impl.ctor fo filenoStdout filenoStderr } path r).2.2,
    rfl, hopts path, ?_, ?_, ?_, ?_, ?_⟩
  · rw [hopts]; exact d1
  · rw [hopts]; exact d2
  · rw [hopts]; exact d3
  · rw [hopts]; exact d4
  · generalize hlog : (SimpleLog.setLogFile
      { pImpl := SimpleLog.Impl.ctor fo filenoStdout filenoStderr } path r).2.1 = log
    have ho := hopts path
    rw [hlog] at ho
    rw [← ho] at d1 d2 d3 d4
    have hfull : fullText fo log.pImpl.formatOptions clk SimpleLog.Impl.Severity.Error m
        = timeStampText clk ++ " !!! ".toList ++ m := by
      simp [fullText, prefixText, contribution, Stage.flag, stageText, d1, d2, d3, d4,
        severitySymbolText]
    have hlen : (fullText fo log.pImpl.formatOptions clk SimpleLog.Impl.Severity.Error
        m).length < 1022 := by
      rw [hfull]
      simp only [List.length_append]
      have : " !!! ".toList.length = 5 := by decide
      omega
    obtain ⟨g1, g2⟩ := fullText_short fo _ clk _ _ hlen
    unfold SimpleLog.error
    rw [logV_eq fo log.pImpl clk writeResult _ _ g1 g2, clip_of_short _ hlen, hfull]

theorem C9_witness :
    ∃ (log : SimpleLog) (events : List Event),
      SimpleLog.ctor exampleFlags 1 2 none none = Except.ok (log, events) ∧
      log.pImpl.formatOptions = intOr (intOr 1 2) 8 ∧
      flagOn log.pImpl.formatOptions 1 = true ∧
      flagOn log.pImpl.formatOptions 2 = true ∧
      flagOn log.pImpl.formatOptions 4 = false ∧
      flagOn log.pImpl.formatOptions 8 = true ∧
      SimpleLog.error exampleFlags log exampleClock 0 "x=5".toList
        = some (0, [Event.write (destination log.pImpl SimpleLog.Impl.Severity.Error)
            ("2024-01-02 03:04:05.123456".toList ++ " !!! ".toList ++ "x=5".toList
              ++ ['\n'])]) :=
  C9_fresh_logger_default_format exampleFlags
    (by unfold FormatOption.Independent; decide) 1 2 none none exampleClock 0
    "x=5".toList (by decide)

/-- C10: over the whole life of a logger (constructor, any sequence of `setLogFile`
calls, destructor) at most one destination file is open after every library call
made, and none after the destructor; each `setLogFile` call closes the open file
before it attempts the open; and a log call after `setLogFile` writes to the
descriptor selected from the new destination file alone, never from the old one. -/
theorem C10_at_most_one_destination_file_open (fo : FormatOption)
    (filenoStdout filenoStderr : Int) (logFilePath : Option String)
    (fopenResult : Option FILE) (calls : List (Option String × Option FILE)) :
    (∃ (final : SimpleLog) (trace : List Event),
      SimpleLog.lifetime fo filenoStdout filenoStderr logFilePath fopenResult calls
        = Except.ok (final, trace) ∧
      (∀ n, (openAfter [] (trace.take n)).length ≤ 1) ∧
      openAfter [] trace = [] ∧
      final.pImpl.fp = none) ∧
    (∀ (log : SimpleLog) (path : String) (r : Option FILE),
      (SimpleLog.setLogFile log (some path) r).2.2
        = (match log.pImpl.fp with
            | some f => [Event.fclose f]
            | none => []) ++ [Event.fopen path "a" r]) ∧
    (∀ (log : SimpleLog) (path : Option String) (r : Option FILE) (clk : Clock)
        (writeResult : Int) (s : SimpleLog.Impl.Severity) (m : List Char)
        (res : Int × List Event),
      SimpleLog.Impl.logV fo (SimpleLog.setLogFile log path r).2.1.pImpl clk
          writeResult s m = some res →
      ∃ bytes, res.2 = [Event.write
        (match path, r with
          | some _, some f => f.fileno
          | _, _ =>
            if s = SimpleLog.Impl.Severity.Error then log.pImpl.fdStderr
            else log.pImpl.fdStdout) bytes]) := by
  refine ⟨?_, ?_, ?_⟩
  · have hc : SimpleLog.ctor fo filenoStdout filenoStderr logFilePath fopenResult
        = Except.ok
          ((SimpleLog.setLogFile
              { pImpl := SimpleLog.Impl.ctor fo filenoStdout filenoStderr }
              logFilePath fopenResult).2.1,
            (SimpleLog.setLogFile
              { pImpl := SimpleLog.Impl.ctor fo filenoStdout filenoStderr }
              logFilePath fopenResult).2.2) := rfl
    obtain ⟨c1, c2⟩ := setLogFile_trace
      { pImpl := SimpleLog.Impl.ctor fo filenoStdout filenoStderr }
      logFilePath fopenResult
    have hinit : (SimpleLog.Impl.ctor fo filenoStdout filenoStderr).fp.toList = [] := rfl
    simp only [hinit] at c1 c2
    generalize (SimpleLog.setLogFile
      { pImpl := SimpleLog.Impl.ctor fo filenoStdout filenoStderr }
      logFilePath fopenResult).2.1 = log0 at hc c1 c2
    generalize (SimpleLog.setLogFile
      { pImpl := SimpleLog.Impl.ctor fo filenoStdout filenoStderr }
      logFilePath fopenResult).2.2 = ev0 at hc c1 c2
    obtain ⟨r1, r2⟩ := setLogFileCalls_trace calls log0
    obtain ⟨d1, d2, d3⟩ := dtor_trace (SimpleLog.setLogFileCalls log0 calls).1
    refine ⟨(SimpleLog.dtor (SimpleLog.setLogFileCalls log0 calls).1).1,
      ev0 ++ (SimpleLog.setLogFileCalls log0 calls).2
        ++ (SimpleLog.dtor (SimpleLog.setLogFileCalls log0 calls).1).2, ?_, ?_, ?_, d3⟩
    · unfold SimpleLog.lifetime
      rw [hc]
    · refine atMostOne_append _ _ _ (atMostOne_append _ _ _ c1 ?_) ?_
      · rw [c2]; exact r1
      · rw [openAfter_append, c2, r2]; exact d1
    · rw [openAfter_append, openAfter_append, c2, r2]
      exact d2
  · intro log path r
    rw [setLogFile_some]
  · intro log path r clk writeResult s m res h
    obtain ⟨bytes, hb⟩ := logV_events fo _ clk writeResult s m res h
    refine ⟨bytes, ?_⟩
    rw [hb]
    cases path with
    | none => rw [setLogFile_none]; rfl
    | some p =>
      rw [setLogFile_some]
      cases r <;> rfl

theorem C10_witness :
    (∃ (final : SimpleLog) (trace : List Event),
      SimpleLog.lifetime exampleFlags 1 2 (some "a.log")
          (some { stream := 1, fileno := 3 })
          [(some "b.log", some { stream := 2, fileno := 3 }), (none, none)]
        = Except.ok (final, trace) ∧
      (∀ n, (openAfter [] (trace.take n)).length ≤ 1) ∧
      openAfter [] trace = [] ∧
      final.pImpl.fp = none) ∧
    ∃ bytes,
      [Event.write 4 (clip (fullText exampleFlags 11 exampleClock
          SimpleLog.Impl.Severity.Error "x".toList) ++ ['\n'])]
        = [Event.write 4 bytes] :=
  have h := C10_at_most_one_destination_file_open exampleFlags 1 2 (some "a.log")
    (some { stream := 1, fileno := 3 })
    [(some "b.log", some { stream := 2, fileno := 3 }), (none, none)]
  ⟨h.1, h.2.2
    { pImpl := { fp := some { stream := 1, fileno := 3 }, formatOptions := 11,
                 fdStdout := 1, fdStderr := 2 } }
    (some "b.log") (some { stream := 2, fileno := 4 }) exampleClock 0
    SimpleLog.Impl.Severity.Error "x".toList _
    (logV_eq exampleFlags _ exampleClock 0 SimpleLog.Impl.Severity.Error "x".toList
      (by decide) (by decide))⟩

/-- C11: whatever the underlying `write` returns (a failure or a short write
included), `info`, `error` and `warning` make their one `write` call and return 0:
the result of `write` does not reach the caller. -/
theorem C11_log_calls_return_zero_whatever_write_returns (fo : FormatOption)
    (log : SimpleLog) (clk : Clock) (writeResult : Int) (m : List Char)
    (hpre : ∀ s, (prefixText fo log.pImpl.formatOptions clk s).length ≤ 1022)
    (hmsg : ∀ s, (contribution fo log.pImpl.formatOptions clk s m Stage.Message).length
      ≤ INT_MAX) :
    SimpleLog.info fo log clk writeResult m
      = some (0, [Event.write (destination log.pImpl SimpleLog.Impl.Severity.Info)
          (clip (fullText fo log.pImpl.formatOptions clk SimpleLog.Impl.Severity.Info m)
            ++ ['\n'])]) ∧
    SimpleLog.error fo log clk writeResult m
      = some (0, [Event.write (destination log.pImpl SimpleLog.Impl.Severity.Error)
          (clip (fullText fo log.pImpl.formatOptions clk SimpleLog.Impl.Severity.Error m)
            ++ ['\n'])]) ∧
    SimpleLog.warning fo log clk writeResult m
      = some (0, [Event.write (destination log.pImpl SimpleLog.Impl.Severity.Warning)
          (clip (fullText fo log.pImpl.formatOptions clk
            SimpleLog.Impl.Severity.Warning m) ++ ['\n'])]) ∧
    (∀ (s : SimpleLog.Impl.Severity) (res : Int × List Event),
      SimpleLog.Impl.logV fo log.pImpl clk writeResult s m = some res → res.1 = 0) := by
  refine ⟨?_, ?_, ?_, ?_⟩
  · exact logV_eq fo log.pImpl clk writeResult _ m (hpre _) (hmsg _)
  · exact logV_eq fo log.pImpl clk writeResult _ m (hpre _) (hmsg _)
  · exact logV_eq fo log.pImpl clk writeResult _ m (hpre _) (hmsg _)
  · intro s res h
    rw [logV_eq fo log.pImpl clk writeResult s m (hpre s) (hmsg s)] at h
    cases h
    rfl

theorem C11_witness :
    SimpleLog.info exampleFlags
        { pImpl := { fp := none, formatOptions := 11, fdStdout := 1, fdStderr := 2 } }
        exampleClock (-1) "x=5".toList
      = some (0, [Event.write 1
          (clip (fullText exampleFlags 11 exampleClock SimpleLog.Impl.Severity.Info
            "x=5".toList) ++ ['\n'])]) ∧
    SimpleLog.error exampleFlags
        { pImpl := { fp := none, formatOptions := 11, fdStdout := 1, fdStderr := 2 } }
        exampleClock (-1) "x=5".toList
      = some (0, [Event.write 2
          (clip (fullText exampleFlags 11 exampleClock SimpleLog.Impl.Severity.Error
            "x=5".toList) ++ ['\n'])]) :=
  have h := C11_log_calls_return_zero_whatever_write_returns exampleFlags
    { pImpl := { fp := none, formatOptions := 11, fdStdout := 1, fdStderr := 2 } }
    exampleClock (-1) "x=5".toList
    (by intro s; cases s <;> decide) (by intro s; cases s <;> decide)
  ⟨h.1, h.2.1⟩

/-- C12: when `ShowSeveritySymbol` is enabled the severity-symbol stage appends a
token of exactly 5 characters for each of the three severities, and with
`ShowSeverityTxt` disabled the written line is the timestamp contribution, that
token and the message, so the message starts 5 characters after the timestamp
contribution whatever the severity. -/
theorem C12_severity_symbol_has_five_characters (fo : FormatOption)
    (self : SimpleLog.Impl) (clk : Clock) (writeResult : Int)
    (s : SimpleLog.Impl.Severity) (m : List Char) (st : Line) (c : List Char)
    (hsym : flagOn self.formatOptions fo.ShowSeveritySymbol = true)
    (htxt : flagOn self.formatOptions fo.ShowSeverityTxt = false)
    (hst : Rendered st c) (hroom : c.length + 5 < 1022)
    (hfit : (contribution fo self.formatOptions clk s m Stage.TimeStamp).length + 5
      + (contribution fo self.formatOptions clk s m Stage.Message).length < 1022) :
    (∃ (st1 : Line) (token : List Char),
      severitySymbolStage fo self s 1022 st = some st1 ∧
      token.length = 5 ∧
      (token = " !!! ".toList ∨ token = "  !  ".toList ∨ token = "     ".toList) ∧
      st1.2 = st.2 + 5 ∧
      st1.1.take st1.2 = st.1.take st.2 ++ token) ∧
    (∃ token : List Char,
      token.length = 5 ∧
      SimpleLog.Impl.logV fo self clk writeResult s m
        = some (0, [Event.write (destination self s)
            ((if flagOn self.formatOptions fo.ShowTimeStamp then timeStampText clk
                else [])
              ++ token
              ++ (if flagOn self.formatOptions fo.ShowMessage then m else [])
              ++ ['\n'])])) := by
  have hcs : contribution fo self.formatOptions clk s m Stage.SeveritySymbol
      = severitySymbolText s := contribution_on fo _ clk s m _ hsym
  have hct : contribution fo self.formatOptions clk s m Stage.SeverityTxt = [] :=
    contribution_off fo _ clk s m _ htxt
  have hlen : (severitySymbolText s).length = 5 := by cases s <;> decide
  have hcases : severitySymbolText s = " !!! ".toList
      ∨ severitySymbolText s = "  !  ".toList
      ∨ severitySymbolText s = "     ".toList := by
    cases s
    · exact Or.inr (Or.inr rfl)
    · exact Or.inl rfl
    · exact Or.inr (Or.inl rfl)
  constructor
  · obtain ⟨st1, e1, r1⟩ := severitySymbolStage_rendered fo self clk s m st c hst
      (by rw [hcs, hlen]; omega)
    rw [hcs] at r1
    obtain ⟨_, i0, t0⟩ := hst
    obtain ⟨_, i1, t1⟩ := r1
    rw [List.length_append, hlen] at i1
    rw [clip_of_short _ (by rw [List.length_append, hlen]; omega)] at t1
    rw [clip_of_short _ (by omega)] at t0
    refine ⟨st1, severitySymbolText s, e1, hlen, hcases, by omega, ?_⟩
    rw [t1, t0]
  · have hfull : fullText fo self.formatOptions clk s m
        = contribution fo self.formatOptions clk s m Stage.TimeStamp
          ++ severitySymbolText s
          ++ contribution fo self.formatOptions clk s m Stage.Message := by
      rw [fullText_split fo _ clk s m Stage.SeveritySymbol, hcs]
      simp only [textBefore, textAfter, hct, List.nil_append]
    have hl : (fullText fo self.formatOptions clk s m).length < 1022 := by
      rw [hfull]
      simp only [List.length_append, hlen]
      exact hfit
    obtain ⟨g1, g2⟩ := fullText_short fo _ clk s m hl
    exact ⟨severitySymbolText s, hlen, by
      rw [logV_eq fo self clk writeResult s m g1 g2, clip_of_short _ hl, hfull]
      rfl⟩

theorem C12_witness :
    ∃ token : List Char,
      token.length = 5 ∧
      SimpleLog.Impl.logV exampleFlags
          { fp := none, formatOptions := 11, fdStdout := 1, fdStderr := 2 }
          exampleClock 0 SimpleLog.Impl.Severity.Warning "x=5".toList
        = some (0, [Event.write 1
            ("2024-01-02 03:04:05.123456".toList ++ token ++ "x=5".toList ++ ['\n'])]) :=
  (C12_severity_symbol_has_five_characters exampleFlags
    { fp := none, formatOptions := 11, fdStdout := 1, fdStderr := 2 } exampleClock 0
    SimpleLog.Impl.Severity.Warning "x=5".toList (List.replicate 1024 NUL, 0) []
    (by decide) (by decide) rendered_init (by decide) (by decide)).2

/-- C13: for every flag set, severity, timestamp and message the characters `logV`
writes are not empty and end with the appended newline; with all four flags disabled
the written line is exactly the newline, for every severity and message. -/
theorem C13_line_always_ends_with_newline (fo : FormatOption) (self : SimpleLog.Impl)
    (clk : Clock) (writeResult : Int) (s : SimpleLog.Impl.Severity) (m : List Char)
    (hpre : (prefixText fo self.formatOptions clk s).length ≤ 1022)
    (hmsg : (contribution fo self.formatOptions clk s m Stage.Message).length
      ≤ INT_MAX) :
    (∃ bytes : List Char,
      SimpleLog.Impl.logV fo self clk writeResult s m
        = some (0, [Event.write (destination self s) bytes]) ∧
      bytes ≠ [] ∧
      bytes.getLast? = some '\n' ∧
      bytes.length ≤ 1023) ∧
    (∀ (off : SimpleLog.Impl) (clk1 : Clock) (s1 : SimpleLog.Impl.Severity)
        (m1 : List Char),
      flagOn off.formatOptions fo.ShowTimeStamp = false →
      flagOn off.formatOptions fo.ShowSeveritySymbol = false →
      flagOn off.formatOptions fo.ShowSeverityTxt = false →
      flagOn off.formatOptions fo.ShowMessage = false →
      SimpleLog.Impl.logV fo off clk1 writeResult s1 m1
        = some (0, [Event.write (destination off s1) ['\n']])) := by
  constructor
  · refine ⟨_, logV_eq fo self clk writeResult s m hpre hmsg, ?_, ?_, ?_⟩
    · intro h
      have := congrArg List.length h
      simp only [List.length_append, List.length_singleton, List.length_nil] at this
      omega
    · exact List.getLast?_concat _
    · rw [List.length_append, clip_length, List.length_singleton]
      omega
  · intro off clk1 s1 m1 h1 h2 h3 h4
    have hp : prefixText fo off.formatOptions clk1 s1 = [] := by
      unfold prefixText
      rw [contribution_off fo _ clk1 s1 [] Stage.TimeStamp h1,
        contribution_off fo _ clk1 s1 [] Stage.SeveritySymbol h2,
        contribution_off fo _ clk1 s1 [] Stage.SeverityTxt h3]
      rfl
    have hm : contribution fo off.formatOptions clk1 s1 m1 Stage.Message = [] :=
      contribution_off fo _ clk1 s1 m1 Stage.Message h4
    have hfull : fullText fo off.formatOptions clk1 s1 m1 = [] := by
      unfold fullText
      rw [hp, hm]
      rfl
    rw [logV_eq fo off clk1 writeResult s1 m1 (by rw [hp]; decide) (by rw [hm]; decide),
      hfull]
    rfl

theorem C13_witness :
    (∃ bytes : List Char,
      SimpleLog.Impl.logV exampleFlags
          { fp := none, formatOptions := 11, fdStdout := 1, fdStderr := 2 }
          exampleClock 0 SimpleLog.Impl.Severity.Error "x=5".toList
        = some (0, [Event.write 2 bytes]) ∧
      bytes ≠ [] ∧ bytes.getLast? = some '\n' ∧ bytes.length ≤ 1023) ∧
    SimpleLog.Impl.logV exampleFlags
        { fp := none, formatOptions := 0, fdStdout := 1, fdStderr := 2 }
        exampleClock 0 SimpleLog.Impl.Severity.Warning "x=5".toList
      = some (0, [Event.write 1 ['\n']]) :=
  have h := C13_line_always_ends_with_newline exampleFlags
    { fp := none, formatOptions := 11, fdStdout := 1, fdStderr := 2 }
    exampleClock 0 SimpleLog.Impl.Severity.Error "x=5".toList (by decide) (by decide)
  ⟨h.1, h.2 { fp := none, formatOptions := 0, fdStdout := 1, fdStderr := 2 }
    exampleClock SimpleLog.Impl.Severity.Warning "x=5".toList
    (by decide) (by decide) (by decide) (by decide)⟩

/-- C14: `setOutputFormat(o)` makes the active format options exactly `o`, whatever
the options were before (no flag outside `o` survives), and leaves the destination
file and both stream handles unchanged. -/
theorem C14_setOutputFormat_replaces_options (log : SimpleLog) (o previous : Int) :
    (SimpleLog.setOutputFormat log o).pImpl.formatOptions = o ∧
    (∀ flag : Int,
      flagOn (SimpleLog.setOutputFormat log o).pImpl.formatOptions flag = flagOn o flag) ∧
    SimpleLog.setOutputFormat (SimpleLog.setOutputFormat log previous) o
      = SimpleLog.setOutputFormat log o ∧
    (SimpleLog.setOutputFormat log o).pImpl.fp = log.pImpl.fp ∧
    (SimpleLog.setOutputFormat log o).pImpl.fdStdout = log.pImpl.fdStdout ∧
    (SimpleLog.setOutputFormat log o).pImpl.fdStderr = log.pImpl.fdStderr :=
  ⟨rfl, fun _ => rfl, rfl, rfl, rfl, rfl⟩

/-- C17: with `ShowMessage` enabled, a prefix (timestamp, symbol and text
contributions) of `p` characters and a message of at least `1022 - p` characters,
`logV` writes 1023 characters: the prefix, the first `1021 - p` characters of the
message, a NUL at offset 1021 and the newline at offset 1022; the last usable
character of the line is a NUL, not message text. -/
theorem C17_full_line_ends_with_nul_then_newline (fo : FormatOption)
    (self : SimpleLog.Impl) (clk : Clock) (writeResult : Int)
    (s : SimpleLog.Impl.Severity) (m : List Char)
    (hon : flagOn self.formatOptions fo.ShowMessage = true)
    (hp : (prefixText fo self.formatOptions clk s).length ≤ 1021)
    (hn : 1022 - (prefixText fo self.formatOptions clk s).length ≤ m.length)
    (hmax : m.length ≤ INT_MAX) :
    ∃ bytes : List Char,
      SimpleLog.Impl.logV fo self clk writeResult s m
        = some (0, [Event.write (destination self s) bytes]) ∧
      bytes = prefixText fo self.formatOptions clk s
        ++ m.take (1021 - (prefixText fo self.formatOptions clk s).length)
        ++ [NUL, '\n'] ∧
      bytes.length = 1023 ∧
      bytes[1021]? = some NUL ∧
      bytes[1022]? = some '\n' := by
  have hc : contribution fo self.formatOptions clk s m Stage.Message = m :=
    contribution_on fo _ clk s m _ hon
  have hfull : fullText fo self.formatOptions clk s m
      = prefixText fo self.formatOptions clk s ++ m := by
    unfold fullText
    rw [hc]
  have hclip : clip (fullText fo self.formatOptions clk s m)
      = prefixText fo self.formatOptions clk s
        ++ m.take (1021 - (prefixText fo self.formatOptions clk s).length)
        ++ [NUL] := by
    rw [hfull, clip, if_neg (by rw [List.length_append]; omega),
      List.take_append_eq_append_take, List.take_of_length_le hp]
  have hlen : (prefixText fo self.formatOptions clk s
      ++ m.take (1021 - (prefixText fo self.formatOptions clk s).length)).length
      = 1021 := by
    rw [List.length_append, List.length_take]
    omega
  refine ⟨_, logV_eq fo self clk writeResult s m (by omega) (by rw [hc]; exact hmax),
    ?_, ?_, ?_, ?_⟩
  · rw [hclip, List.append_assoc _ [NUL] ['\n']]
    rfl
  · rw [List.length_append, clip_length, hfull, List.length_append,
      List.length_singleton]
    omega
  · rw [hclip, List.append_assoc _ [NUL] ['\n'],
      List.getElem?_append_right (by omega), hlen]
    rfl
  · rw [hclip, List.append_assoc _ [NUL] ['\n'],
      List.getElem?_append_right (by omega), hlen]
    rfl

theorem C17_witness :
    ∃ bytes : List Char,
      SimpleLog.Impl.logV exampleFlags
          { fp := none, formatOptions := 8, fdStdout := 1, fdStderr := 2 }
          exampleClock 0 SimpleLog.Impl.Severity.Info (List.replicate 1022 'a')
        = some (0, [Event.write 1 bytes]) ∧
      bytes = prefixText exampleFlags 8 exampleClock SimpleLog.Impl.Severity.Info
        ++ (List.replicate 1022 'a').take
          (1021 - (prefixText exampleFlags 8 exampleClock
            SimpleLog.Impl.Severity.Info).length)
        ++ [NUL, '\n'] ∧
      bytes.length = 1023 ∧
      bytes[1021]? = some NUL ∧
      bytes[1022]? = some '\n' :=
  C17_full_line_ends_with_nul_then_newline exampleFlags
    { fp := none, formatOptions := 8, fdStdout := 1, fdStderr := 2 }
    exampleClock 0 SimpleLog.Impl.Severity.Info (List.replicate 1022 'a')
    (by decide) (by decide)
    (by rw [List.length_replicate]; decide) (by rw [List.length_replicate]; decide)

/-- C18: when the timestamp text has at most 26 characters and the formatting calls
return non-negative lengths, every stage of `logV` starts with `ix <= 1022`, so the
size argument `len - ix` never wraps around; the index at the final stores is at
most 1022, both stores are inside the 1024-character buffer and the length passed
to `write` is at most 1023. -/
theorem C18_index_stays_inside_buffer (fo : FormatOption) (self : SimpleLog.Impl)
    (clk : Clock) (writeResult : Int) (s : SimpleLog.Impl.Severity) (m : List Char)
    (hts : (timeStampText clk).length ≤ 26)
    (hmsg : (contribution fo self.formatOptions clk s m Stage.Message).length
      ≤ INT_MAX) :
    ∃ st1 st2 st3 st4 fin : Line,
      timeStampStage fo self clk 1022 (List.replicate 1024 NUL, 0) = some st1 ∧
      severitySymbolStage fo self s 1022 st1 = some st2 ∧
      severityTxtStage fo self s 1022 st2 = some st3 ∧
      messageStage fo self m 1022 st3 = some st4 ∧
      terminateLine st4 = some fin ∧
      renderLine fo self clk s m = some fin ∧
      (flagOn self.formatOptions fo.ShowTimeStamp = true →
        ∃ r1, strftime (List.replicate 1024 NUL) 0 (sizeSub 1022 0) clk.date = some r1 ∧
          sizeAdd 0 r1.2 ≤ 1022 ∧
          sizeSub 1022 (sizeAdd 0 r1.2) = 1022 - sizeAdd 0 r1.2) ∧
      st1.2 ≤ 1022 ∧ sizeSub 1022 st1.2 = 1022 - st1.2 ∧
      st2.2 ≤ 1022 ∧ sizeSub 1022 st2.2 = 1022 - st2.2 ∧
      st3.2 ≤ 1022 ∧ sizeSub 1022 st3.2 = 1022 - st3.2 ∧
      st4.2 ≤ 1022 ∧
      fin.2 = st4.2 + 1 ∧ st4.2 < fin.1.length ∧ fin.2 < fin.1.length ∧
      fin.1.length = 1024 ∧
      SimpleLog.Impl.logV fo self clk writeResult s m
        = some (0, [Event.write (destination self s) (fin.1.take fin.2)]) ∧
      (fin.1.take fin.2).length ≤ 1023 := by
  have b1 := contribution_timeStamp_length fo self.formatOptions clk s []
  have b2 := contribution_symbol_length fo self.formatOptions clk s []
  have b3 := contribution_txt_length fo self.formatOptions clk s []
  obtain ⟨st1, e1, r1⟩ := timeStampStage_rendered fo self clk s [] _ [] rendered_init
    (by simp only [List.length_nil]; omega)
  obtain ⟨st2, e2, r2⟩ := severitySymbolStage_rendered fo self clk s [] st1 _ r1
    (by simp only [List.length_append, List.length_nil]; omega)
  obtain ⟨st3, e3, r3⟩ := severityTxtStage_rendered fo self clk s [] st2 _ r2
    (by simp only [List.length_append, List.length_nil]; omega)
  obtain ⟨st4, e4, r4⟩ := messageStage_rendered fo self clk s m st3 _ r3 hmsg
  obtain ⟨buf, e5, _⟩ := terminateLine_rendered st4 _ r4
  have hrender : renderLine fo self clk s m = some (buf, min
      ([] ++ contribution fo self.formatOptions clk s [] Stage.TimeStamp
        ++ contribution fo self.formatOptions clk s [] Stage.SeveritySymbol
        ++ contribution fo self.formatOptions clk s [] Stage.SeverityTxt
        ++ contribution fo self.formatOptions clk s m Stage.Message).length 1022 + 1) := by
    unfold renderLine
    show ((timeStampStage fo self clk 1022 (List.replicate 1024 NUL, 0)).bind fun st1 =>
      (severitySymbolStage fo self s 1022 st1).bind fun st2 =>
      (severityTxtStage fo self s 1022 st2).bind fun st3 =>
      (messageStage fo self m 1022 st3).bind fun st4 => terminateLine st4) = _
    rw [e1, Option.some_bind, e2, Option.some_bind, e3, Option.some_bind, e4,
      Option.some_bind, e5]
  have hlenfin := terminateLine_length st4 _ e5
  have i1 := r1.2.1
  have i2 := r2.2.1
  have i3 := r3.2.1
  have i4 := r4.2.1
  have l4 := r4.1
  simp only [] at hlenfin
  refine ⟨st1, st2, st3, st4, _, e1, e2, e3, e4, e5, hrender, ?_, by omega,
    sizeSub_len _ (by omega), by omega, sizeSub_len _ (by omega), by omega,
    sizeSub_len _ (by omega), by omega, ?_, ?_, ?_, ?_, ?_, ?_⟩
  · intro hon
    have hd : clk.date.length ≤ 26 := by
      unfold timeStampText at hts
      rw [List.length_append] at hts
      omega
    obtain ⟨b, eb, _⟩ := strftime_rendered (List.replicate 1024 NUL, 0) [] clk.date
      rendered_init (by simp only [List.length_nil]; omega)
    have hs : sizeAdd 0 clk.date.length = clk.date.length := by
      rw [sizeAdd_small _ _ (by omega), Nat.zero_add]
    exact ⟨_, eb, by rw [hs]; omega, by rw [hs]; exact sizeSub_len _ (by omega)⟩
  · show _ = st4.2 + 1
    rw [i4]
  · rw [hlenfin, l4]; omega
  · show _ < _
    rw [hlenfin, l4]
    show min _ 1022 + 1 < 1024
    omega
  · rw [hlenfin, l4]
  · unfold SimpleLog.Impl.logV
    rw [hrender, Option.some_bind]
  · rw [List.length_take]
    show min (min _ 1022 + 1) _ ≤ 1023
    omega

theorem C18_witness :
    ∃ st1 st2 st3 st4 fin : Line,
      timeStampStage exampleFlags
          { fp := none, formatOptions := 15, fdStdout := 1, fdStderr := 2 } exampleClock
          1022 (List.replicate 1024 NUL, 0) = some st1 ∧
      severitySymbolStage exampleFlags
          { fp := none, formatOptions := 15, fdStdout := 1, fdStderr := 2 }
          SimpleLog.Impl.Severity.Warning 1022 st1 = some st2 ∧
      severityTxtStage exampleFlags
          { fp := none, formatOptions := 15, fdStdout := 1, fdStderr := 2 }
          SimpleLog.Impl.Severity.Warning 1022 st2 = some st3 ∧
      messageStage exampleFlags
          { fp := none, formatOptions := 15, fdStdout := 1, fdStderr := 2 }
          (List.replicate 2000 'a') 1022 st3 = some st4 ∧
      terminateLine st4 = some fin ∧
      st1.2 ≤ 1022 ∧ st2.2 ≤ 1022 ∧ st3.2 ≤ 1022 ∧ st4.2 ≤ 1022 ∧
      fin.2 < fin.1.length ∧ (fin.1.take fin.2).length ≤ 1023 :=
  have ⟨st1, st2, st3, st4, fin, e1, e2, e3, e4, e5, _, _, i1, _, i2, _, i3, _, i4, _,
      _, h2, _, _, hl⟩ :=
    C18_index_stays_inside_buffer exampleFlags
      { fp := none, formatOptions := 15, fdStdout := 1, fdStderr := 2 } exampleClock 0
      SimpleLog.Impl.Severity.Warning (List.replicate 2000 'a') (by decide)
      (by rw [contribution_on _ _ _ _ _ _ (by decide)]
          show (List.replicate 2000 'a').length ≤ INT_MAX
          rw [List.length_replicate]; decide)
  ⟨st1, st2, st3, st4, fin, e1, e2, e3, e4, e5, i1, i2, i3, i4, h2, hl⟩

/-- C15: in a whole session (constructor, any sequence of `setLogFile`,
`setOutputFormat`, `setFileDescriptors`, `info`, `error` and `warning` calls,
destructor) every `fclose` closes a stream that an earlier `fopen` of the logger
returned and that is still open, its own destination file; the stdout and stderr
handles are only ever written to, whatever values `setFileDescriptors` was given. -/
theorem C15_only_own_destination_file_is_closed (fo : FormatOption)
    (filenoStdout filenoStderr : Int) (logFilePath : Option String)
    (fopenResult : Option FILE) (calls : List Call) (final : SimpleLog)
    (events : List Event)
    (h : SimpleLog.session fo filenoStdout filenoStderr logFilePath fopenResult calls
      = some (final, events)) :
    ∀ (n : Nat) (f : FILE), events[n]? = some (Event.fclose f) →
      f ∈ openAfter [] (events.take n) ∧
      ∃ (k : Nat) (path mode : String),
        k < n ∧ events[k]? = some (Event.fopen path mode (some f)) := by
  intro n f hn
  have hmem := session_closes fo filenoStdout filenoStderr logFilePath fopenResult calls
    (final, events) h n f hn
  refine ⟨hmem, ?_⟩
  rcases mem_openAfter _ _ f hmem with h0 | ⟨k, path, mode, hk⟩
  · cases h0
  · rw [List.getElem?_take] at hk
    by_cases hkn : k < n
    · rw [if_pos hkn] at hk
      exact ⟨k, path, mode, hkn, hk⟩
    · rw [if_neg hkn] at hk
      cases hk

set_option maxRecDepth 1000000 in
theorem C15_witness :
    SimpleLog.session exampleFlags 1 2 (some "a.log")
        (some { stream := 1, fileno := 3 })
        [Call.info exampleClock 0 "x".toList, Call.setFileDescriptors 3 3,
          Call.setLogFile none none, Call.error exampleClock (-1) "y".toList]
      = some
        ({ pImpl := { fp := none, formatOptions := 11, fdStdout := 3, fdStderr := 3 } },
          [Event.fopen "a.log" "a" (some { stream := 1, fileno := 3 }),
           Event.write 3 "2024-01-02 03:04:05.123456     x\n".toList,
           Event.fclose { stream := 1, fileno := 3 },
           Event.write 3 "2024-01-02 03:04:05.123456 !!! y\n".toList]) ∧
    ∃ (k : Nat) (path mode : String),
      k < 2 ∧
      [Event.fopen "a.log" "a" (some { stream := 1, fileno := 3 }),
       Event.write 3 "2024-01-02 03:04:05.123456     x\n".toList,
       Event.fclose { stream := 1, fileno := 3 },
       Event.write 3 "2024-01-02 03:04:05.123456 !!! y\n".toList][k]?
        = some (Event.fopen path mode (some { stream := 1, fileno := 3 })) :=
  ⟨by decide,
    (C15_only_own_destination_file_is_closed exampleFlags 1 2 (some "a.log")
      (some { stream := 1, fileno := 3 })
      [Call.info exampleClock 0 "x".toList, Call.setFileDescriptors 3 3,
        Call.setLogFile none none, Call.error exampleClock (-1) "y".toList]
      { pImpl := { fp := none, formatOptions := 11, fdStdout := 3, fdStderr := 3 } }
      _ (by decide) 2 { stream := 1, fileno := 3 } rfl).2⟩
